import Mathlib

/-
Verification of the DICAT anonymization pipeline (`anonymizer_methods.py`)
against its natural-language specification.

The Python module is shallowly embedded:
  * a DICOM header is a finite association list from element descriptions
    (PyDICOM keywords) to string values;
  * the configured field dictionary maps DICOM tag names (e.g. "0010,0010")
    to entries carrying the keys the Python dict may hold: `Description`
    and `Editable` are always present, while `Value` and `Update` model the
    optional dict keys of the same names (`none` = key absent);
  * the filesystem is a finite tree of named entries (files and
    directories); Python paths are lists of components, `os.path.sep`
    joins them;
  * Python exceptions (`sys.exit`, `KeyError`, `NameError`, `IndexError`,
    IO errors, `OSError`) become an error type; functions that touch the
    filesystem return `Except (PyErr × Entry) (α × Entry)` so that the
    filesystem state at the moment an exception is raised is preserved.
-/

set_option autoImplicit false

namespace DICAT

/-- Python exceptions raised by `anonymizer_methods.py`. -/
inductive PyErr where
  /-- `sys.exit(msg)` -/
  | systemExit (msg : String)
  /-- `KeyError` on a dict access, carrying the missing key -/
  | keyError (key : String)
  /-- `NameError` on an unbound variable, carrying the variable name -/
  | nameError (nm : String)
  /-- `IndexError` on list indexing -/
  | indexError
  /-- an IO failure (file not found / not readable as DICOM) -/
  | ioError
  /-- `OSError` from `os.mkdir`, `os.listdir`, `shutil.rmtree` -/
  | osError
  deriving Repr, DecidableEq

/-- A DICOM header: association list from element description (PyDICOM
keyword) to its string value. -/
abbrev Dataset := List (String × String)

/-- One entry of the configured field dictionary (one `<item>` of
`fields_to_zap.xml` plus keys added later).  `Value` and `Update` are
`none` when the corresponding Python dict key is absent. -/
structure FieldEntry where
  Description : String
  Editable : Bool
  Value : Option String
  Update : Option Bool
  deriving Repr, DecidableEq

/-- The configured field dictionary: association list from DICOM tag name
(such as "0010,0010") to its entry. -/
abbrev FieldDict := List (String × FieldEntry)

/-- Lookup of `dicom_fields[name]`. -/
def fieldGet (fields : FieldDict) (name : String) : Option FieldEntry :=
  (fields.find? (fun nf => nf.1 = name)).map (fun nf => nf.2)

/-- Lookup of `dicom_dataset.data_element(desc).value` (read). -/
def dsGet (ds : Dataset) (desc : String) : Option String :=
  (ds.find? (fun e => e.1 = desc)).map (fun e => e.2)

/-- Assignment `dicom_dataset.data_element(desc).value = v`: succeeds only
when an element with that description exists, otherwise the Python call
raises (the zapping code catches that and continues). -/
def dsSet (ds : Dataset) (desc v : String) : Option Dataset :=
  if ds.any (fun e => e.1 = desc) then
    some (ds.map (fun e => if e.1 = desc then (e.1, v) else e))
  else
    none

/-- Body of the per-field loop of `actual_PyDICOM_zapping`
(anonymizer_methods.py lines 251-265): `new_val` is the `Value` key when
present and `""` otherwise; an editable field is written with `new_val`, a
non-editable field with `''`; a failing write (element absent from the
file) is swallowed by the bare `except: continue`. -/
def zapField (ds : Dataset) (f : FieldEntry) : Dataset :=
  let new_val := f.Value.getD ""
  if f.Editable then
    match dsSet ds f.Description new_val with
    | some ds2 => ds2
    | none => ds
  else
    match dsSet ds f.Description "" with
    | some ds2 => ds2
    | none => ds

/-- The whole field loop of `actual_PyDICOM_zapping`: fold `zapField` over
the configured field dictionary in order. -/
def zapDataset (ds : Dataset) : FieldDict → Dataset
  | [] => ds
  | nf :: rest => zapDataset (zapField ds nf.2) rest

/-- The (tag name, written value) pair that the PyDICOM zapping loop
writes for one configured field when the element is present in the file:
editable fields get `Value` (or `""` when absent), non-editable fields get
`''`. -/
def pyZapMods (fields : FieldDict) : List (String × String) :=
  fields.map (fun nf => (nf.1, if nf.2.Editable then nf.2.Value.getD "" else ""))

/-- Field-reading loop of `Grep_DICOM_values_PyDicom` (lines 155-159): for
each configured field, try to read the element named by its `Description`
from the dataset and store it under `Value`; a missing element raises,
which the bare `except: continue` swallows, leaving the entry unchanged. -/
def readLoop (ds : Dataset) : FieldDict → FieldDict
  | [] => []
  | (n, f) :: rest =>
    match dsGet ds f.Description with
    | some v => (n, { f with Value := some v }) :: readLoop ds rest
    | none => (n, f) :: readLoop ds rest

/-- Command-building loop of `Dicom_zapping` (lines 329-344).  The state is
the `dcmodify` command string, the list of (tag, new value) modifications
the appended options encode, and `changed_fields_nb`.  A non-editable field
with a `Value` key appends `-ma "(tag)"=" "`; every other field reads
`dicom_fields[name]['Update']` — a `KeyError` when the key is absent — and
appends `-ma "(tag)"="new_val"` when `Update` is `True`. -/
def buildModifyLoop (cmd : String) (mods : List (String × String)) (nb : Nat) :
    FieldDict → Except PyErr (String × List (String × String) × Nat)
  | [] => .ok (cmd, mods, nb)
  | (name, f) :: rest =>
    let new_val := f.Value.getD ""
    if ¬ f.Editable ∧ f.Value.isSome then
      buildModifyLoop (cmd ++ " -ma \"(" ++ name ++ ")\"=\" \" ")
        (mods ++ [(name, " ")]) (nb + 1) rest
    else
      match f.Update with
      | none => .error (.keyError "Update")
      | some u =>
        if u then
          buildModifyLoop (cmd ++ " -ma \"(" ++ name ++ ")\"=\"" ++ new_val ++ "\" ")
            (mods ++ [(name, new_val)]) (nb + 1) rest
        else
          buildModifyLoop cmd mods nb rest

/-- The command-building phase of `Dicom_zapping`, started from the
initial command `"dcmodify "` with no modifications recorded. -/
def buildModifyCmd (fields : FieldDict) :
    Except PyErr (String × List (String × String) × Nat) :=
  buildModifyLoop "dcmodify " [] 0 fields

/-- Shape of a field dictionary as produced by `Grep_DICOM_fields`
(lines 118-127) possibly followed by the value-reading step: neither step
ever creates an `Update` key. -/
def GrepShape (fields : FieldDict) : Prop :=
  ∀ nf ∈ fields, (nf : String × FieldEntry).2.Update = none

/-- A Python path, split at `os.path.sep`. -/
abbrev Path := List String

/-- Render a path the way Python strings concatenate its components with
`os.path.sep` (used in the messages passed to `sys.exit` and in the
`len(dicom)` guard). -/
def pathToString : Path → String
  | [] => ""
  | [n] => n
  | n :: p :: ps => n ++ "/" ++ pathToString (p :: ps)

mutual

/-- Contents of a file in the filesystem model: a DICOM file (its
header), a plain non-DICOM file, or a zip archive listing its member files
with paths relative to the archived directory. -/
inductive FileData where
  | dicom (ds : Dataset)
  | text (s : String)
  | zipArchive (entries : List (Path × FileData))

/-- A filesystem tree: a file with contents, or a directory with an
ordered list of named children (the order models the directory order that
`os.walk` and `os.listdir` report). -/
inductive Entry where
  | file (d : FileData)
  | dir (children : List (String × Entry))

end

/-- Name lookup among the children of a directory. -/
def findChild (cs : List (String × Entry)) (n : String) : Option Entry :=
  (cs.find? (fun c => c.1 = n)).map (fun c => c.2)

/-- Replace the first child named `n` when present, otherwise append it at
the end. -/
def setChild : List (String × Entry) → String → Entry → List (String × Entry)
  | [], n, e => [(n, e)]
  | c :: rest, n, e =>
    if c.1 = n then (c.1, e) :: rest else c :: setChild rest n e

/-- Resolve a path in the tree. -/
def Entry.lookup : Entry → Path → Option Entry
  | e, [] => some e
  | .file _, _ :: _ => none
  | .dir cs, n :: p =>
    match findChild cs n with
    | some c => c.lookup p
    | none => none

/-- Model of `os.path.exists`. -/
def Entry.existsAt (fs : Entry) (p : Path) : Bool := (fs.lookup p).isSome

/-- Create or overwrite the file at `p` (all parent directories must
exist). -/
def Entry.writeAt : Entry → Path → FileData → Option Entry
  | _, [], _ => none
  | .file _, _ :: _, _ => none
  | .dir cs, [n], d => some (.dir (setChild cs n (.file d)))
  | .dir cs, n :: p :: ps, d =>
    match findChild cs n with
    | some c =>
      match c.writeAt (p :: ps) d with
      | some c2 => some (.dir (setChild cs n c2))
      | none => none
    | none => none

/-- Insert a fresh entry at `p`: fails when `p` already exists or its
parent is missing (the failure mode of `os.mkdir`). -/
def Entry.insertAt : Entry → Path → Entry → Option Entry
  | _, [], _ => none
  | .file _, _ :: _, _ => none
  | .dir cs, [n], e =>
    if cs.any (fun c => c.1 = n) then none else some (.dir (cs ++ [(n, e)]))
  | .dir cs, n :: p :: ps, e =>
    match findChild cs n with
    | some c =>
      match c.insertAt (p :: ps) e with
      | some c2 => some (.dir (setChild cs n c2))
      | none => none
    | none => none

/-- Remove the entry at `p` (file or directory tree): fails when `p` does
not exist. -/
def Entry.removeAt : Entry → Path → Option Entry
  | _, [] => none
  | .file _, _ :: _ => none
  | .dir cs, [n] =>
    if cs.any (fun c => c.1 = n) then
      some (.dir (cs.filter (fun c => ¬ c.1 = n)))
    else none
  | .dir cs, n :: p :: ps =>
    match findChild cs n with
    | some c =>
      match c.removeAt (p :: ps) with
      | some c2 => some (.dir (setChild cs n c2))
      | none => none
    | none => none

/-- Names of the subdirectories among a directory's children, in order. -/
def dirNames (cs : List (String × Entry)) : List String :=
  cs.filterMap (fun c => match c.2 with | .dir _ => some c.1 | .file _ => none)

/-- Names of the plain files among a directory's children, in order. -/
def fileNames (cs : List (String × Entry)) : List String :=
  cs.filterMap (fun c => match c.2 with | .file _ => some c.1 | .dir _ => none)

mutual

/-- Top-down traversal of a tree rooted at path `p`, producing the
`(dirpath, dirnames, filenames)` triples of `os.walk` (a file produces no
triple, like `os.walk` called on a non-directory). -/
def walkEntry (p : Path) : Entry → List (Path × List String × List String)
  | .file _ => []
  | .dir cs => (p, dirNames cs, fileNames cs) :: walkChildren p cs
termination_by structural e => e

/-- Traversal of the children of a directory at path `p`, in order. -/
def walkChildren (p : Path) : List (String × Entry) →
    List (Path × List String × List String)
  | [] => []
  | c :: rest => walkEntry (p ++ [c.1]) c.2 ++ walkChildren p rest
termination_by structural l => l

end

/-- Model of `os.walk(root, topdown=True)`: nothing when `root` does not
exist (like Python, which reports no triples for a missing directory). -/
def osWalk (fs : Entry) (root : Path) : List (Path × List String × List String) :=
  match fs.lookup root with
  | some e => walkEntry root e
  | none => []

mutual

/-- All files below an entry, with their relative paths (the member list
`shutil.make_archive` stores). -/
def flattenEntry : Entry → List (Path × FileData)
  | .file d => [([], d)]
  | .dir cs => flattenChildren cs
termination_by structural e => e

/-- All files below a list of named children, with their relative paths. -/
def flattenChildren : List (String × Entry) → List (Path × FileData)
  | [] => []
  | c :: rest =>
    (flattenEntry c.2).map (fun pd => (c.1 :: pd.1, pd.2)) ++ flattenChildren rest
termination_by structural l => l

end

/-- Path of the archive `directory + '.zip'` (the suffix attaches to the
last component). -/
def zipPath : Path → Path
  | [] => []
  | [n] => [n ++ ".zip"]
  | n :: p :: ps => n :: zipPath (p :: ps)

/-- Result of a code fragment that may raise: either an exception paired
with the filesystem at the moment of the raise, or a value paired with the
final filesystem. -/
abbrev PyRes (α : Type) := Except (PyErr × Entry) (α × Entry)

/-- Containment of one character sequence inside another. -/
def listContainsSub (sub : List Char) : List Char → Bool
  | [] => sub.isEmpty
  | c :: rest => sub.isPrefixOf (c :: rest) || listContainsSub sub rest

/-- Whether `suf` is a suffix of `s` (the `$`-anchored regex
alternatives). -/
def strEndsWith (s suf : String) : Bool := suf.toList.isSuffixOf s.toList

/-- Whether `sub` occurs anywhere inside `s` (an unanchored regex
alternative). -/
def strContains (s sub : String) : Bool := listContainsSub sub.toList s.toList

/-- Test of the exclusion regex
`\.bmp$|\.png$|\.zip$|\.txt$|\.jpeg$|\.pdf$|\.DS_Store` (line 93) on a
file name: the first six alternatives are anchored at the end of the
name, the last matches anywhere in it. -/
def isExcluded (name : String) : Bool :=
  strEndsWith name ".bmp" || strEndsWith name ".png" || strEndsWith name ".zip" ||
  strEndsWith name ".txt" || strEndsWith name ".jpeg" || strEndsWith name ".pdf" ||
  strContains name ".DS_Store"

/-- Loop of `GrepDicomsFromFolder` (lines 94-102) over the `os.walk`
triples: a directory with at least one file or subdirectory contributes
its non-excluded files (with full paths) and its subdirectory names; a
directory with neither files nor subdirectories makes the program exit. -/
def grepLoop (folder : Path) (dAcc : List Path) (sAcc : List String) :
    List (Path × List String × List String) →
    Except PyErr (List Path × List String)
  | [] => .ok (dAcc, sAcc)
  | (root, sds, fls) :: rest =>
    if fls.length ≠ 0 ∨ sds.length ≠ 0 then
      grepLoop folder
        (dAcc ++ (fls.filter (fun f => ¬ isExcluded f)).map (fun f => root ++ [f]))
        (sAcc ++ sds) rest
    else
      .error (.systemExit ("Could not find any files in " ++ pathToString folder))

/-- Model of `GrepDicomsFromFolder` (lines 73-104). -/
def GrepDicomsFromFolder (fs : Entry) (dicom_folder : Path) :
    Except PyErr (List Path × List String) :=
  grepLoop dicom_folder [] [] (osWalk fs dicom_folder)

/-- Model of `dicom.read_file`: succeeds only on an existing file holding
DICOM data, raises otherwise. -/
def read_file (fs : Entry) (p : Path) : Except PyErr Dataset :=
  match fs.lookup p with
  | some (.file (.dicom ds)) => .ok ds
  | _ => .error .ioError

/-- Model of `Grep_DICOM_values_PyDicom` (lines 130-161): discover, take
the first discovered file (`dicoms_list[0]` raises `IndexError` on an
empty list), read it, and run the field-reading loop on its header. -/
def Grep_DICOM_values_PyDicom (fs : Entry) (dicom_folder : Path)
    (dicom_fields : FieldDict) : Except PyErr FieldDict :=
  match GrepDicomsFromFolder fs dicom_folder with
  | .error e => .error e
  | .ok (dicoms_list, _) =>
    match dicoms_list with
    | [] => .error .indexError
    | dicom_file :: _ =>
      match read_file fs dicom_file with
      | .error e => .error e
      | .ok ds => .ok (readLoop ds dicom_fields)

/-- Model of `actual_PyDICOM_zapping` (lines 236-266): read the DICOM file,
run the field loop (`zapDataset`) on its header, save the result in
place. -/
def actual_PyDICOM_zapping (fs : Entry) (dicom_file : Path)
    (dicom_fields : FieldDict) : PyRes Unit :=
  match fs.lookup dicom_file with
  | some (.file (.dicom ds)) =>
    match fs.writeAt dicom_file (.dicom (zapDataset ds dicom_fields)) with
    | some fs2 => .ok ((), fs2)
    | none => .error (.ioError, fs)
  | _ => .error (.ioError, fs)

/-- Model of `os.mkdir`: raises `OSError` when the target exists or its
parent is missing. -/
def mkdir (fs : Entry) (p : Path) : PyRes Unit :=
  match fs.insertAt p (.dir []) with
  | some fs2 => .ok ((), fs2)
  | none => .error (.osError, fs)

/-- Subdirectory loop of `createDirectories` (lines 403-405). -/
def mkSubdirs (original_dir anonymize_dir : Path) (fs : Entry) :
    List String → PyRes Unit
  | [] => .ok ((), fs)
  | s :: rest =>
    match mkdir fs (original_dir ++ [s]) with
    | .error e => .error e
    | .ok (_, fs1) =>
      match mkdir fs1 (anonymize_dir ++ [s]) with
      | .error e => .error e
      | .ok (_, fs2) => mkSubdirs original_dir anonymize_dir fs2 rest

/-- Model of `createDirectories` (lines 377-407): the directory names come
from `dicom_fields['0010,0010']['Value']` — a `KeyError` when the tag or
its `Value` key is absent — then the two staging directories and their
subdirectories are created. -/
def createDirectories (fs : Entry) (dicom_folder : Path)
    (dicom_fields : FieldDict) (subdirs_list : List String) :
    PyRes (Path × Path) :=
  match fieldGet dicom_fields "0010,0010" with
  | none => .error (.keyError "0010,0010", fs)
  | some f =>
    match f.Value with
    | none => .error (.keyError "Value", fs)
    | some v =>
      let original_dir := dicom_folder ++ [v]
      let anonymize_dir := dicom_folder ++ [v ++ "_anonymized"]
      match mkdir fs original_dir with
      | .error e => .error e
      | .ok (_, fs1) =>
        match mkdir fs1 anonymize_dir with
        | .error e => .error e
        | .ok (_, fs2) =>
          match mkSubdirs original_dir anonymize_dir fs2 subdirs_list with
          | .error e => .error e
          | .ok (_, fs3) => .ok ((original_dir, anonymize_dir), fs3)

/-- Model of `shutil.copy(src, dstdir)` as called at line 220: `dstdir` is
an existing directory and the file is copied into it under its base
name. -/
def copyIntoDir (fs : Entry) (src dstDir : Path) : PyRes Unit :=
  match fs.lookup src, src.getLast?, fs.lookup dstDir with
  | some (.file d), some base, some (.dir _) =>
    match fs.writeAt (dstDir ++ [base]) d with
    | some fs2 => .ok ((), fs2)
    | none => .error (.ioError, fs)
  | _, _, _ => .error (.ioError, fs)

/-- Model of `shutil.move(src, dstdir)` as called at line 221: copy into
the directory, then remove the source. -/
def moveIntoDir (fs : Entry) (src dstDir : Path) : PyRes Unit :=
  match copyIntoDir fs src dstDir with
  | .error e => .error e
  | .ok (_, fs1) =>
    match fs1.removeAt src with
    | some fs2 => .ok ((), fs2)
    | none => .error (.ioError, fs1)

/-- Staging loop of `Dicom_zapping_PyDicom` (lines 219-221): copy each
discovered file into the anonymize directory, then move it into the
original directory. -/
def stageLoop (anonymize_dir original_dir : Path) (fs : Entry) :
    List Path → PyRes Unit
  | [] => .ok ((), fs)
  | dicom :: rest =>
    match copyIntoDir fs dicom anonymize_dir with
    | .error e => .error e
    | .ok (_, fs1) =>
      match moveIntoDir fs1 dicom original_dir with
      | .error e => .error e
      | .ok (_, fs2) => stageLoop anonymize_dir original_dir fs2 rest

/-- One left-to-right scan of Python `str.replace` over a character list:
at each position, when the non-empty pattern starts there, the replacement
is emitted and the matched characters are skipped, otherwise one character
is copied.  `fuel` bounds the number of scan steps; instantiated with the
string length it never runs out, because every step consumes at least one
character. -/
def listReplaceFuel (pat rep : List Char) : Nat → List Char → List Char
  | 0, s => s
  | _ + 1, [] => []
  | fuel + 1, c :: rest =>
    if pat.isPrefixOf (c :: rest) ∧ ¬ pat.isEmpty then
      rep ++ listReplaceFuel pat rep fuel ((c :: rest).drop pat.length)
    else
      c :: listReplaceFuel pat rep fuel rest

/-- Python `s.replace(pat, rep)`: every non-overlapping occurrence of
`pat` in `s`, scanned left to right, is replaced by `rep` (replacements
are not rescanned).  The `pat = ""` corner, where Python would insert
`rep` at every position, cannot arise at line 225 — the pattern there is
the root folder path, never the empty string — and the model leaves the
string unchanged in that corner. -/
def strReplace (s pat rep : String) : String :=
  ⟨listReplaceFuel pat.data rep.data s.data.length s.data⟩

/-- Splitting a character list at the path separator; `acc` holds the
reversed characters of the component being read. -/
def splitAux : List Char → List Char → Path
  | [], acc => [String.mk acc.reverse]
  | c :: rest, acc =>
    if c = '/' then String.mk acc.reverse :: splitAux rest []
    else splitAux rest (c :: acc)

/-- A path string read back as a sequence of components, split at the
separator (how the filesystem resolves the rebased path string). -/
def splitPath (s : String) : Path := splitAux s.data []

/-- Model of the substitution `dicom.replace(dicom_folder, anonymize_dir)`
(line 225): Python replaces every occurrence of the folder string inside
the discovered path string, and the result is then used as a filesystem
path, i.e. interpreted as components split at the separator. -/
def rebasePath (oldPre newPre p : Path) : Path :=
  splitPath (strReplace (pathToString p) (pathToString oldPre) (pathToString newPre))

/-- Zapping loop of `Dicom_zapping_PyDicom` (lines 224-227): rebase each
discovered path into the anonymize directory and run
`actual_PyDICOM_zapping` there (`len(dicom) != 0` guards against empty
path strings). -/
def zapLoop (dicom_folder anonymize_dir : Path) (dicom_fields : FieldDict)
    (fs : Entry) : List Path → PyRes Unit
  | [] => .ok ((), fs)
  | dicom :: rest =>
    let anonymize_dcm := rebasePath dicom_folder anonymize_dir dicom
    if (pathToString dicom).length ≠ 0 then
      match actual_PyDICOM_zapping fs anonymize_dcm dicom_fields with
      | .error e => .error e
      | .ok (_, fs1) => zapLoop dicom_folder anonymize_dir dicom_fields fs1 rest
    else
      zapLoop dicom_folder anonymize_dir dicom_fields fs rest

/-- Model of `zipDicom` (lines 410-433).  `failZips` lists the archive
paths at which the external `shutil.make_archive` fails to produce an
archive; the code observes such a failure only through the
`os.path.exists` check that follows the call. -/
def zipDicom (failZips : List Path) (fs : Entry) (directory : Path) :
    PyRes Path :=
  let archive := zipPath directory
  match fs.lookup directory with
  | some (.dir cs) =>
    if cs.isEmpty then
      .error (.systemExit ("The directory " ++ pathToString directory ++
        " is empty and will not be archived."), fs)
    else
      let fs1 :=
        if archive ∈ failZips then fs
        else (fs.writeAt archive (.zipArchive (flattenChildren cs))).getD fs
      if fs1.existsAt archive then
        match fs1.removeAt directory with
        | some fs2 => .ok (archive, fs2)
        | none => .error (.osError, fs1)
      else
        .error (.systemExit (pathToString archive ++ " could not be created."), fs1)
  | _ => .error (.osError, fs)

/-- Model of `zip_DICOM_directories` (lines 269-303).  The cleanup loop at
lines 297-298 evaluates `dicom_folder + os.path.sep + subdir`, but
`dicom_folder` is bound nowhere in that function or at module level, so
entering the loop (a non-empty `subdirs_list`) raises
`NameError: dicom_folder`. -/
def zip_DICOM_directories (failZips : List Path) (fs : Entry)
    (anonymize_dir original_dir : Path) (subdirs_list : List String) :
    PyRes (Path × Path) :=
  if fs.existsAt anonymize_dir && fs.existsAt original_dir then
    match zipDicom failZips fs original_dir with
    | .error e => .error e
    | .ok (original_zip, fs1) =>
      match zipDicom failZips fs1 anonymize_dir with
      | .error e => .error e
      | .ok (anonymize_zip, fs2) =>
        if fs2.existsAt anonymize_zip && fs2.existsAt original_zip then
          match subdirs_list with
          | [] => .ok ((anonymize_zip, original_zip), fs2)
          | _ :: _ => .error (.nameError "dicom_folder", fs2)
        else
          .error (.systemExit
            "Failed: could not zip anonymize and original data folders", fs2)
  else
    .error (.systemExit "Failed to find original and anonymize data folders", fs)

/-- Model of `Dicom_zapping_PyDicom` (lines 196-233): discover, create the
staging directories, copy/move every discovered file, zap the copies in
the anonymize directory, then zip both staging directories. -/
def Dicom_zapping_PyDicom (failZips : List Path) (fs : Entry)
    (dicom_folder : Path) (dicom_fields : FieldDict) : PyRes (Path × Path) :=
  match GrepDicomsFromFolder fs dicom_folder with
  | .error e => .error (e, fs)
  | .ok (dicoms_list, subdirs_list) =>
    match createDirectories fs dicom_folder dicom_fields subdirs_list with
    | .error e => .error e
    | .ok ((original_dir, anonymize_dir), fs1) =>
      match stageLoop anonymize_dir original_dir fs1 dicoms_list with
      | .error e => .error e
      | .ok (_, fs2) =>
        match zapLoop dicom_folder anonymize_dir dicom_fields fs2 dicoms_list with
        | .error e => .error e
        | .ok (_, fs3) =>
          zip_DICOM_directories failZips fs3 anonymize_dir original_dir subdirs_list

/-- The exception of a result, when it is an error. -/
def errOf {α : Type} : PyRes α → Option PyErr
  | .error (e, _) => some e
  | .ok _ => none

/-- Whether path `p` exists in the filesystem carried by an error
result. -/
def errExistsAt {α : Type} (r : PyRes α) (p : Path) : Option Bool :=
  match r with
  | .error (_, fs) => some (fs.existsAt p)
  | .ok _ => none

/-- The returned value of a successful result. -/
def okValOf {α : Type} : PyRes α → Option α
  | .ok (a, _) => some a
  | .error _ => none

/-- Resolution of path `p` in the filesystem of a successful result. -/
def okLookup {α : Type} (r : PyRes α) (p : Path) : Option (Option Entry) :=
  match r with
  | .ok (_, fs) => some (fs.lookup p)
  | .error _ => none

/-- The member list of the zip archive at path `p` in the filesystem of a
successful result. -/
def okZipEntries {α : Type} (r : PyRes α) (p : Path) :
    Option (List (Path × FileData)) :=
  match r with
  | .ok (_, fs) =>
    match fs.lookup p with
    | some (.file (.zipArchive es)) => some es
    | _ => none
  | .error _ => none

/-! Lemmas about header reads and writes. -/

@[simp] theorem dsGet_nil (d : String) : dsGet [] d = none := rfl

@[simp] theorem dsGet_cons (e : String × String) (rest : Dataset) (d : String) :
    dsGet (e :: rest) d = if e.1 = d then some e.2 else dsGet rest d := by
  by_cases h : e.1 = d <;> simp [dsGet, List.find?_cons, h]

theorem dsGet_update (ds : Dataset) (desc v d : String) :
    dsGet (ds.map (fun e => if e.1 = desc then (e.1, v) else e)) d =
      if d = desc then (dsGet ds d).map (fun _ => v) else dsGet ds d := by
  induction ds with
  | nil => simp
  | cons e rest ih =>
    by_cases h1 : e.1 = desc <;> by_cases h2 : d = desc <;>
      (simp_all [h1, h2]; try simp_all [eq_comm])

theorem dsGet_isSome_eq_any (ds : Dataset) (d : String) :
    (dsGet ds d).isSome = ds.any (fun e => e.1 = d) := by
  induction ds with
  | nil => simp
  | cons e rest ih =>
    by_cases h : e.1 = d <;> simp [h, ih]

theorem zapField_get_self (ds : Dataset) (f : FieldEntry) :
    dsGet (zapField ds f) f.Description =
      (dsGet ds f.Description).map
        (fun _ => if f.Editable then f.Value.getD "" else "") := by
  unfold zapField dsSet
  by_cases h : ds.any (fun e => e.1 = f.Description)
  · cases hf : f.Editable <;> simp [h, hf, dsGet_update]
  · have hnone : dsGet ds f.Description = none := by
      rw [← Option.not_isSome_iff_eq_none, dsGet_isSome_eq_any]
      simpa using h
    cases hf : f.Editable <;> simp [h, hf, hnone]

theorem zapField_get_other (ds : Dataset) (f : FieldEntry) (d : String)
    (h : d ≠ f.Description) : dsGet (zapField ds f) d = dsGet ds d := by
  unfold zapField dsSet
  by_cases hA : ds.any (fun e => e.1 = f.Description) <;>
    cases hf : f.Editable <;> simp [hA, hf, dsGet_update, h]

theorem zapDataset_get_untouched (fields : FieldDict) (d : String) :
    ∀ ds : Dataset, (∀ nf ∈ fields, (nf : String × FieldEntry).2.Description ≠ d) →
    dsGet (zapDataset ds fields) d = dsGet ds d := by
  induction fields with
  | nil => intro ds _; rfl
  | cons g rest ih =>
    intro ds h
    rw [zapDataset, ih _ (fun nf hm => h nf (List.mem_cons_of_mem g hm)),
      zapField_get_other]
    exact fun hc => h g (List.mem_cons_self g rest) hc.symm

theorem zapDataset_get (fields : FieldDict) :
    ∀ ds : Dataset,
    (fields.map (fun nf => (nf : String × FieldEntry).2.Description)).Nodup →
    ∀ nf ∈ fields,
      dsGet (zapDataset ds fields) (nf : String × FieldEntry).2.Description =
        (dsGet ds nf.2.Description).map
          (fun _ => if nf.2.Editable then nf.2.Value.getD "" else "") := by
  induction fields with
  | nil => intro ds _ nf hm; simp at hm
  | cons g rest ih =>
    intro ds hnodup nf hm
    rcases List.mem_cons.mp hm with hg | hm2
    · subst hg
      rw [zapDataset, zapDataset_get_untouched rest nf.2.Description]
      · exact zapField_get_self ds nf.2
      · intro mf hmf hc
        have : nf.2.Description ∈ rest.map
            (fun x => (x : String × FieldEntry).2.Description) := by
          exact hc ▸ List.mem_map_of_mem _ hmf
        simp only [List.map_cons, List.nodup_cons] at hnodup
        exact hnodup.1 this
    · rw [zapDataset]
      have hne : nf.2.Description ≠ g.2.Description := by
        intro hc
        simp only [List.map_cons, List.nodup_cons] at hnodup
        exact hnodup.1 (hc ▸ List.mem_map_of_mem _ hm2)
      have := ih (zapField ds g.2)
        (by simp only [List.map_cons, List.nodup_cons] at hnodup; exact hnodup.2)
        nf hm2
      rw [this, zapField_get_other ds g.2 nf.2.Description hne]

/-- Claim C1, counterexample.  Field dictionary: one editable entry
(`PatientName`) with no operator-supplied value; file header:
`PatientName = "John"`.  The claim says an editable field without an
operator-supplied value is left unchanged; the write loop of
`actual_PyDICOM_zapping` sets it to the empty string. -/
theorem C1_counterexample :
    zapDataset [("PatientName", "John")]
        [("0010,0010", ⟨"PatientName", true, none, none⟩)] =
      [("PatientName", "")] ∧
    [("PatientName", "")] ≠ [("PatientName", "John")] := by
  exact ⟨rfl, by decide⟩

/-- Claim C1 (amended): in the PyDICOM write loop, for every configured
field whose element is present in the file, a non-editable field is
blanked to `""`, and an editable field is set to the operator-supplied
value when one exists and to the empty string otherwise (it is not left
unchanged); a field whose element is absent from the file leaves the
header untouched at every description not named by any configured
field. -/
theorem C1_write_rule (ds : Dataset) (fields : FieldDict)
    (hnodup : (fields.map (fun nf => (nf : String × FieldEntry).2.Description)).Nodup) :
    (∀ nf ∈ fields,
      dsGet (zapDataset ds fields) (nf : String × FieldEntry).2.Description =
        (dsGet ds nf.2.Description).map
          (fun _ => if nf.2.Editable then nf.2.Value.getD "" else "")) ∧
    (∀ d : String, (∀ nf ∈ fields, (nf : String × FieldEntry).2.Description ≠ d) →
      dsGet (zapDataset ds fields) d = dsGet ds d) := by
  exact ⟨zapDataset_get fields ds hnodup, fun d h => zapDataset_get_untouched fields d ds h⟩

/-- Witness for `C1_write_rule` at a concrete dictionary and header:
a non-editable field is blanked, an editable one receives the operator
value. -/
theorem C1_write_rule_witness :
    dsGet (zapDataset [("PatientName", "John"), ("PatientID", "1234")]
        [("0010,0010", ⟨"PatientName", true, some "Anon", none⟩),
         ("0010,0020", ⟨"PatientID", false, some "1234", none⟩)]) "PatientName" =
      some "Anon" := by
  have h := (C1_write_rule [("PatientName", "John"), ("PatientID", "1234")]
    [("0010,0010", ⟨"PatientName", true, some "Anon", none⟩),
     ("0010,0020", ⟨"PatientID", false, some "1234", none⟩)] (by decide)).1
    ("0010,0010", ⟨"PatientName", true, some "Anon", none⟩) (by simp)
  simpa using h

/-! Lemmas about the dcmodify command-building loop. -/

/-- The (tag, new value) modifications encoded in the built `dcmodify`
command, when the loop completes. -/
def cmdMods (fields : FieldDict) : Option (List (String × String)) :=
  match buildModifyCmd fields with
  | .ok (_, mods, _) => some mods
  | .error _ => none

theorem offender_of_not_branch {f : FieldEntry}
    (hg : ¬ (¬ f.Editable = true ∧ f.Value.isSome = true)) :
    f.Editable = true ∨ f.Value = none := by
  by_cases hb : f.Editable = true
  · exact Or.inl hb
  · right
    rcases Option.eq_none_or_eq_some f.Value with hv | ⟨v, hv⟩
    · exact hv
    · exact absurd ⟨hb, by simp [hv]⟩ hg

theorem buildModifyLoop_all_updated (fields : FieldDict)
    (h : ∀ nf ∈ fields, (nf : String × FieldEntry).2.Editable = true ∧
      nf.2.Value.isSome = true ∧ nf.2.Update = some true) :
    ∀ cmd mods nb, ∃ cmd2, buildModifyLoop cmd mods nb fields =
      .ok (cmd2, mods ++ pyZapMods fields, nb + fields.length) := by
  induction fields with
  | nil => intro cmd mods nb; exact ⟨cmd, by simp [buildModifyLoop, pyZapMods]⟩
  | cons g rest ih =>
    intro cmd mods nb
    obtain ⟨hE, hV, hU⟩ := h g (List.mem_cons_self g rest)
    have hrest := fun nf hm => h nf (List.mem_cons_of_mem g hm)
    rw [buildModifyLoop, if_neg (by simp [hE]), hU]
    dsimp only
    rw [if_pos rfl]
    obtain ⟨cmd2, hcmd2⟩ := ih hrest
      (cmd ++ " -ma \"(" ++ g.1 ++ ")\"=\"" ++ g.2.Value.getD "" ++ "\" ")
      (mods ++ [(g.1, g.2.Value.getD "")]) (nb + 1)
    refine ⟨cmd2, ?_⟩
    rw [hcmd2]
    have hpz : pyZapMods (g :: rest) = (g.1, g.2.Value.getD "") :: pyZapMods rest := by
      simp [pyZapMods, hE]
    rw [hpz, List.append_assoc]
    simp [Nat.add_comm, Nat.add_assoc, Nat.add_left_comm]

theorem buildModifyLoop_ok_of_update_present (fields : FieldDict)
    (h : ∀ nf ∈ fields, ((nf : String × FieldEntry).2.Editable = true ∨
      nf.2.Value = none) → nf.2.Update.isSome = true) :
    ∀ cmd mods nb, ∃ out, buildModifyLoop cmd mods nb fields = .ok out := by
  induction fields with
  | nil => intro cmd mods nb; exact ⟨(cmd, mods, nb), rfl⟩
  | cons g rest ih =>
    intro cmd mods nb
    have hrest := fun nf hm hc => h nf (List.mem_cons_of_mem g hm) hc
    rw [buildModifyLoop]
    by_cases hg : ¬ g.2.Editable = true ∧ g.2.Value.isSome = true
    · rw [if_pos hg]; exact ih hrest _ _ _
    · rw [if_neg hg]
      obtain ⟨u, hu⟩ := Option.isSome_iff_exists.mp
        (h g (List.mem_cons_self g rest) (offender_of_not_branch hg))
      rw [hu]
      dsimp only
      rcases u with _ | _
      · rw [if_neg (by simp)]
        exact ih hrest _ _ _
      · rw [if_pos rfl]
        exact ih hrest _ _ _

theorem buildModifyLoop_keyError_iff (fields : FieldDict)
    (hshape : GrepShape fields) :
    ∀ cmd mods nb,
      (buildModifyLoop cmd mods nb fields = .error (.keyError "Update") ↔
        ∃ nf ∈ fields, (nf : String × FieldEntry).2.Editable = true ∨
          nf.2.Value = none) := by
  induction fields with
  | nil =>
    intro cmd mods nb
    constructor
    · intro h; exact absurd h (by simp [buildModifyLoop])
    · intro h; simp at h
  | cons g rest ih =>
    intro cmd mods nb
    have hshapeRest : GrepShape rest := fun nf hm => hshape nf (List.mem_cons_of_mem g hm)
    have hgU : g.2.Update = none := hshape g (List.mem_cons_self g rest)
    rw [buildModifyLoop]
    by_cases hg : ¬ g.2.Editable = true ∧ g.2.Value.isSome = true
    · rw [if_pos hg]
      rw [ih hshapeRest]
      constructor
      · rintro ⟨nf, hm, hoff⟩; exact ⟨nf, List.mem_cons_of_mem g hm, hoff⟩
      · rintro ⟨nf, hm, hoff⟩
        rcases List.mem_cons.mp hm with hgg | hm2
        · subst hgg
          rcases hoff with hE | hV
          · exact absurd hE (by simpa using hg.1)
          · exact absurd hg.2 (by simp [hV])
        · exact ⟨nf, hm2, hoff⟩
    · rw [if_neg hg, hgU]
      constructor
      · intro _
        exact ⟨g, List.mem_cons_self g rest, offender_of_not_branch hg⟩
      · intro _; rfl

/-- Claim C3, counterexample.  Field dictionary: one non-editable entry
with operator value `"John"` (and `Update = False`, so the command loop
completes).  The PyDICOM loop writes the empty string into the field; the
`dcmodify` command encodes a single-space value. -/
theorem C3_counterexample :
    pyZapMods [("0010,0010", ⟨"PatientName", false, some "John", some false⟩)] =
      [("0010,0010", "")] ∧
    cmdMods [("0010,0010", ⟨"PatientName", false, some "John", some false⟩)] =
      some [("0010,0010", " ")] ∧
    some [("0010,0010", "")] ≠
      cmdMods [("0010,0010", ⟨"PatientName", false, some "John", some false⟩)] := by
  refine ⟨rfl, rfl, by decide⟩

/-- Claim C3 (amended): the two write branches do not encode the same
modifications in general (non-editable fields get `""` from the PyDICOM
loop but `" "` from `dcmodify`, and only the `dcmodify` branch gates
editable fields on `Update`); they agree exactly on field dictionaries in
which every entry is editable, carries a value, and has `Update = True`:
there the `dcmodify` command encodes precisely the (tag, value) pairs the
PyDICOM loop writes. -/
theorem C3_agreement (fields : FieldDict)
    (h : ∀ nf ∈ fields, (nf : String × FieldEntry).2.Editable = true ∧
      nf.2.Value.isSome = true ∧ nf.2.Update = some true) :
    cmdMods fields = some (pyZapMods fields) := by
  obtain ⟨cmd2, hcmd2⟩ := buildModifyLoop_all_updated fields h "dcmodify " [] 0
  simp only [cmdMods, buildModifyCmd, hcmd2, List.nil_append]

/-- Witness for `C3_agreement`: a two-entry all-editable, all-updated
dictionary. -/
theorem C3_agreement_witness :
    cmdMods [("0010,0010", ⟨"PatientName", true, some "Anon", some true⟩),
             ("0010,0020", ⟨"PatientID", true, some "XY12", some true⟩)] =
      some [("0010,0010", "Anon"), ("0010,0020", "XY12")] := by
  have h := C3_agreement
    [("0010,0010", ⟨"PatientName", true, some "Anon", some true⟩),
     ("0010,0020", ⟨"PatientID", true, some "XY12", some true⟩)] (by decide)
  simpa [pyZapMods] using h

/-- Claim C9, counterexample.  A field dictionary produced by
`Grep_DICOM_fields` (one non-editable entry, no `Update`, no `Value`)
followed by the value-reading step on a header that carries the field: the
command-building loop completes without a `KeyError`. -/
theorem C9_counterexample :
    buildModifyCmd (readLoop [("PatientName", "John")]
        [("0010,0010", ⟨"PatientName", false, none, none⟩)]) =
      .ok ("dcmodify  -ma \"(0010,0010)\"=\" \" ", [("0010,0010", " ")], 1) := by
  rfl

/-- Claim C9 (amended): the command-building loop of `Dicom_zapping`
requires exactly that every entry that is editable or lacks a `Value` key
carries an `Update` key: under that precondition the loop completes, and
on a dictionary shaped as `Grep_DICOM_fields` output (no `Update` keys,
values possibly added by the reading step) it raises `KeyError` if and
only if some entry is editable or lacks a value. -/
theorem C9_update_precondition (fields : FieldDict) :
    ((∀ nf ∈ fields, ((nf : String × FieldEntry).2.Editable = true ∨
        nf.2.Value = none) → nf.2.Update.isSome = true) →
      ∃ out, buildModifyCmd fields = .ok out) ∧
    (GrepShape fields →
      (buildModifyCmd fields = .error (.keyError "Update") ↔
        ∃ nf ∈ fields, (nf : String × FieldEntry).2.Editable = true ∨
          nf.2.Value = none)) := by
  constructor
  · intro h
    exact buildModifyLoop_ok_of_update_present fields h "dcmodify " [] 0
  · intro hshape
    exact buildModifyLoop_keyError_iff fields hshape "dcmodify " [] 0

/-- Witness for `C9_update_precondition`: a dictionary with one editable
entry lacking `Update` raises the `KeyError`, and one with `Update` keys
everywhere completes. -/
theorem C9_update_precondition_witness :
    buildModifyCmd [("0010,0010", ⟨"PatientName", true, some "John", none⟩)] =
      .error (.keyError "Update") := by
  have h := (C9_update_precondition
    [("0010,0010", ⟨"PatientName", true, some "John", none⟩)]).2
    (by intro nf hm; rcases List.mem_singleton.mp hm with rfl; rfl)
  exact h.mpr ⟨("0010,0010", ⟨"PatientName", true, some "John", none⟩), by simp, by simp⟩

/-! Lemmas about the discovery loop. -/

theorem grepLoop_error_iff (folder : Path) :
    ∀ walkList : List (Path × List String × List String), ∀ dAcc sAcc,
      (grepLoop folder dAcc sAcc walkList =
          .error (.systemExit ("Could not find any files in " ++ pathToString folder)) ↔
        ∃ t ∈ walkList, (t : Path × List String × List String).2.1 = [] ∧
          t.2.2 = []) := by
  intro walkList
  induction walkList with
  | nil =>
    intro dAcc sAcc
    constructor
    · intro h; exact absurd h (by simp [grepLoop])
    · rintro ⟨t, ht, _⟩; simp at ht
  | cons t rest ih =>
    intro dAcc sAcc
    obtain ⟨root, sds, fls⟩ := t
    rw [grepLoop]
    by_cases hc : fls.length ≠ 0 ∨ sds.length ≠ 0
    · rw [if_pos hc, ih]
      constructor
      · rintro ⟨u, hu, he⟩; exact ⟨u, List.mem_cons_of_mem _ hu, he⟩
      · rintro ⟨u, hu, he⟩
        rcases List.mem_cons.mp hu with rfl | hu2
        · rcases hc with hc | hc
          · exact absurd (by simpa using he.2) hc
          · exact absurd (by simpa using he.1) hc
        · exact ⟨u, hu2, he⟩
    · rw [if_neg hc]
      push_neg at hc
      constructor
      · intro _
        exact ⟨(root, sds, fls), List.mem_cons_self _ _,
          List.length_eq_zero.mp hc.2, List.length_eq_zero.mp hc.1⟩
      · intro _; rfl

theorem grepLoop_ok (folder : Path) :
    ∀ walkList : List (Path × List String × List String),
      (∀ t ∈ walkList, (t : Path × List String × List String).2.1 ≠ [] ∨
        t.2.2 ≠ []) →
      ∀ dAcc sAcc, grepLoop folder dAcc sAcc walkList =
        .ok (dAcc ++ walkList.flatMap (fun t =>
            (t.2.2.filter (fun f => ¬ isExcluded f)).map (fun f => t.1 ++ [f])),
          sAcc ++ walkList.flatMap (fun t => t.2.1)) := by
  intro walkList
  induction walkList with
  | nil => intro _ dAcc sAcc; simp [grepLoop]
  | cons t rest ih =>
    intro h dAcc sAcc
    obtain ⟨root, sds, fls⟩ := t
    have ht := h (root, sds, fls) (List.mem_cons_self _ _)
    have hc : fls.length ≠ 0 ∨ sds.length ≠ 0 := by
      rcases ht with ht | ht
      · right; simpa [List.length_eq_zero] using ht
      · left; simpa [List.length_eq_zero] using ht
    rw [grepLoop, if_pos hc,
      ih (fun u hu => h u (List.mem_cons_of_mem _ hu))]
    simp [List.flatMap_cons, List.append_assoc]

/-- Claim C4, counterexample.  A root directory containing one file
`readme.txt`: its walk discovers no input file (the only file matches the
exclusion pattern), yet `GrepDicomsFromFolder` returns an empty list
without exiting, and the pipeline continues. -/
theorem C4_counterexample :
    GrepDicomsFromFolder
        (.dir [("data", .dir [("readme.txt", .file (.text "hello"))])])
        ["data"] =
      .ok ([], []) := by
  rfl

/-- Claim C4 (amended): `GrepDicomsFromFolder` exits with the message
`Could not find any files in <folder>` exactly when the walk encounters a
directory with neither files nor subdirectories; a root whose files are
all excluded by the pattern returns an empty DICOM list without
exiting. -/
theorem C4_exit_condition (fs : Entry) (folder : Path) :
    GrepDicomsFromFolder fs folder =
        .error (.systemExit ("Could not find any files in " ++ pathToString folder)) ↔
      ∃ t ∈ osWalk fs folder, (t : Path × List String × List String).2.1 = [] ∧
        t.2.2 = [] := by
  exact grepLoop_error_iff folder (osWalk fs folder) [] []

/-- Claim C6, counterexample.  A root holding the DICOM file `a.dcm` and
an empty subdirectory `sub`: the claim says the call returns
`["data/a.dcm"]` and `["sub"]`, but the walk reaches the empty
subdirectory and the process exits instead of returning. -/
theorem C6_counterexample :
    GrepDicomsFromFolder
        (.dir [("data", .dir
          [("a.dcm", .file (.dicom [("PatientName", "John")])),
           ("sub", .dir [])])])
        ["data"] =
      .error (.systemExit "Could not find any files in data") := by
  rfl

/-- Claim C6 (amended): for every directory tree whose walk encounters no
directory that has neither files nor subdirectories, `GrepDicomsFromFolder`
returns first exactly the files at any depth under the root (full paths)
whose names do not match the exclusion pattern for `.bmp`, `.png`, `.zip`,
`.txt`, `.jpeg`, `.pdf` and `.DS_Store`, in walk order, and second the
bare names of the subdirectories encountered during the walk; a tree whose
walk meets such a directory makes the process exit instead. -/
theorem C6_discovery (fs : Entry) (folder : Path)
    (h : ∀ t ∈ osWalk fs folder, (t : Path × List String × List String).2.1 ≠ [] ∨
      t.2.2 ≠ []) :
    GrepDicomsFromFolder fs folder =
      .ok ((osWalk fs folder).flatMap (fun t =>
          (t.2.2.filter (fun f => ¬ isExcluded f)).map (fun f => t.1 ++ [f])),
        (osWalk fs folder).flatMap (fun t => t.2.1)) := by
  have := grepLoop_ok folder (osWalk fs folder) h [] []
  simpa [GrepDicomsFromFolder] using this

/-- Witness for `C6_discovery`: a two-level tree with a mix of excluded
and kept files. -/
theorem C6_discovery_witness :
    GrepDicomsFromFolder
        (.dir [("data", .dir
          [("a.dcm", .file (.dicom [("PatientName", "John")])),
           ("notes.txt", .file (.text "n")),
           ("sub", .dir [("b.dcm", .file (.dicom [("PatientName", "John")]))])])])
        ["data"] =
      .ok ([["data", "a.dcm"], ["data", "sub", "b.dcm"]], ["sub"]) := by
  have h := C6_discovery
    (.dir [("data", .dir
      [("a.dcm", .file (.dicom [("PatientName", "John")])),
       ("notes.txt", .file (.text "n")),
       ("sub", .dir [("b.dcm", .file (.dicom [("PatientName", "John")]))])])])
    ["data"] (by decide)
  simpa using h

/-! Reading values from the first discovered file. -/

theorem readLoop_eq_map (ds : Dataset) :
    ∀ fields : FieldDict, readLoop ds fields = fields.map (fun nf =>
      match dsGet ds nf.2.Description with
      | some v => (nf.1, { nf.2 with Value := some v })
      | none => nf) := by
  intro fields
  induction fields with
  | nil => rfl
  | cons g rest ih =>
    obtain ⟨n, f⟩ := g
    rw [readLoop, ih]
    rcases h : dsGet ds f.Description with _ | v <;> simp [h]

/-- Claim C5: `Grep_DICOM_values_PyDicom` reads only the first discovered
file — when discovery succeeds with first file `d` holding header `ds`,
the call returns without error, and its result is determined by `ds`
alone: every configured field whose `Description` names an element of `ds`
gets that element's value stored under `Value`, and every other field
entry is returned unchanged. -/
theorem C5_value_reading (fs : Entry) (folder : Path) (fields : FieldDict)
    (d : Path) (rest : List Path) (subdirs : List String) (ds : Dataset)
    (hgrep : GrepDicomsFromFolder fs folder = .ok (d :: rest, subdirs))
    (hfile : fs.lookup d = some (.file (.dicom ds))) :
    Grep_DICOM_values_PyDicom fs folder fields = .ok (readLoop ds fields) ∧
    readLoop ds fields = fields.map (fun nf =>
      match dsGet ds nf.2.Description with
      | some v => (nf.1, { nf.2 with Value := some v })
      | none => nf) := by
  refine ⟨?_, readLoop_eq_map ds fields⟩
  unfold Grep_DICOM_values_PyDicom read_file
  rw [hgrep]
  dsimp only
  rw [hfile]

/-- Witness for `C5_value_reading`: two discovered files; only the first
is read; a field present in its header receives a `Value`, a missing field
stays untouched. -/
theorem C5_value_reading_witness :
    Grep_DICOM_values_PyDicom
        (.dir [("data", .dir
          [("a.dcm", .file (.dicom [("PatientName", "John")])),
           ("b.dcm", .file (.dicom [("PatientName", "Mary")]))])])
        ["data"]
        [("0010,0010", ⟨"PatientName", true, none, none⟩),
         ("0010,0020", ⟨"PatientID", true, none, none⟩)] =
      .ok [("0010,0010", ⟨"PatientName", true, some "John", none⟩),
           ("0010,0020", ⟨"PatientID", true, none, none⟩)] := by
  have h := (C5_value_reading
    (.dir [("data", .dir
      [("a.dcm", .file (.dicom [("PatientName", "John")])),
       ("b.dcm", .file (.dicom [("PatientName", "Mary")]))])])
    ["data"]
    [("0010,0010", ⟨"PatientName", true, none, none⟩),
     ("0010,0020", ⟨"PatientID", true, none, none⟩)]
    ["data", "a.dcm"] [["data", "b.dcm"]] []
    [("PatientName", "John")] rfl rfl).1
  rw [h]
  rfl

/-! Lemmas about the filesystem tree operations. -/

@[simp] theorem findChild_nil (n : String) : findChild [] n = none := rfl

theorem findChild_cons (c : String × Entry) (rest : List (String × Entry))
    (n : String) :
    findChild (c :: rest) n = if c.1 = n then some c.2 else findChild rest n := by
  by_cases h : c.1 = n <;> simp [findChild, List.find?_cons, h]

theorem findChild_isSome_any (n : String) :
    ∀ cs : List (String × Entry),
      (findChild cs n).isSome = cs.any (fun c => c.1 = n) := by
  intro cs
  induction cs with
  | nil => simp
  | cons c rest ih =>
    by_cases h : c.1 = n <;> simp [findChild_cons, h, ih]

theorem findChild_setChild_self (n : String) (e : Entry) :
    ∀ cs, findChild (setChild cs n e) n = some e := by
  intro cs
  induction cs with
  | nil => simp [setChild, findChild_cons]
  | cons c rest ih =>
    by_cases h : c.1 = n
    · simp [setChild, h, findChild_cons]
    · simp [setChild, h, findChild_cons, ih]

theorem findChild_setChild_other (n m : String) (e : Entry) (hmn : m ≠ n) :
    ∀ cs, findChild (setChild cs n e) m = findChild cs m := by
  have hnm : ¬ n = m := fun h => hmn h.symm
  intro cs
  induction cs with
  | nil => simp [setChild, findChild_cons, hnm]
  | cons c rest ih =>
    by_cases h : c.1 = n
    · have hcm : ¬ c.1 = m := by intro hc; rw [h] at hc; exact hnm hc
      simp [setChild, h, findChild_cons, hcm, hnm]
    · simp [setChild, h, findChild_cons, ih]

theorem findChild_filter_other (n m : String) (hmn : m ≠ n) :
    ∀ cs : List (String × Entry),
      findChild (cs.filter (fun c => ¬ c.1 = n)) m = findChild cs m := by
  intro cs
  induction cs with
  | nil => simp
  | cons c rest ih =>
    rw [List.filter_cons]
    by_cases h : c.1 = n
    · have hcm : ¬ c.1 = m := by intro hc; rw [h] at hc; exact hmn hc.symm
      rw [if_neg (by simp [h]), findChild_cons, if_neg hcm]
      exact ih
    · rw [if_pos (by simp [h]), findChild_cons, findChild_cons, ih]

theorem lookup_nil (fs : Entry) : fs.lookup [] = some fs := by
  cases fs <;> rfl

theorem lookup_cons_found {cs0 : List (String × Entry)} {n : String} {c : Entry}
    (hf : findChild cs0 n = some c) (p : Path) :
    (Entry.dir cs0).lookup (n :: p) = c.lookup p := by
  rw [Entry.lookup, hf]

theorem lookup_cons_missing {cs0 : List (String × Entry)} {n : String}
    (hf : findChild cs0 n = none) (p : Path) :
    (Entry.dir cs0).lookup (n :: p) = none := by
  rw [Entry.lookup, hf]

theorem writeAt_cons_cons {cs0 : List (String × Entry)} {n : String} {c : Entry}
    (hf : findChild cs0 n = some c) (q : String) (qs : Path) (d : FileData) :
    (Entry.dir cs0).writeAt (n :: q :: qs) d =
      match c.writeAt (q :: qs) d with
      | some c2 => some (.dir (setChild cs0 n c2))
      | none => none := by
  rw [Entry.writeAt, hf]

theorem removeAt_cons_cons {cs0 : List (String × Entry)} {n : String} {c : Entry}
    (hf : findChild cs0 n = some c) (q : String) (qs : Path) :
    (Entry.dir cs0).removeAt (n :: q :: qs) =
      match c.removeAt (q :: qs) with
      | some c2 => some (.dir (setChild cs0 n c2))
      | none => none := by
  rw [Entry.removeAt, hf]

theorem parent_dir_of_lookup (x : String) :
    ∀ (par : Path) (fs e : Entry), fs.lookup (par ++ [x]) = some e →
      ∃ cs0, fs.lookup par = some (.dir cs0) := by
  intro par
  induction par with
  | nil =>
    intro fs e h
    cases fs with
    | file _ => simp [Entry.lookup] at h
    | dir cs0 => exact ⟨cs0, lookup_nil _⟩
  | cons n p ih =>
    intro fs e h
    cases fs with
    | file _ => simp [Entry.lookup] at h
    | dir cs0 =>
      rw [List.cons_append] at h
      cases hf : findChild cs0 n with
      | none => rw [lookup_cons_missing hf] at h; cases h
      | some c =>
        rw [lookup_cons_found hf] at h
        obtain ⟨cs1, hcs1⟩ := ih c e h
        exact ⟨cs1, by rw [lookup_cons_found hf, hcs1]⟩

theorem writeAt_some_of_parent_dir (d : FileData) (y : String) :
    ∀ (par : Path) (fs : Entry) (cs : List (String × Entry)),
      fs.lookup par = some (.dir cs) →
      ∃ fs2, fs.writeAt (par ++ [y]) d = some fs2 := by
  intro par
  induction par with
  | nil =>
    intro fs cs h
    rw [lookup_nil] at h
    cases h
    exact ⟨_, rfl⟩
  | cons n p ih =>
    intro fs cs h
    cases fs with
    | file _ => simp [Entry.lookup] at h
    | dir cs0 =>
      cases hf : findChild cs0 n with
      | none => rw [lookup_cons_missing hf] at h; cases h
      | some c =>
        rw [lookup_cons_found hf] at h
        obtain ⟨c2, hc2⟩ := ih c cs h
        refine ⟨.dir (setChild cs0 n c2), ?_⟩
        rw [List.cons_append]
        cases hp : p ++ [y] with
        | nil => exact absurd hp (by simp)
        | cons q qs =>
          rw [writeAt_cons_cons hf, ← hp, hc2]

theorem lookup_writeAt_self (d : FileData) :
    ∀ (p : Path) (fs fs2 : Entry), fs.writeAt p d = some fs2 →
      fs2.lookup p = some (.file d) := by
  intro p
  induction p with
  | nil => intro fs fs2 h; cases fs <;> cases h
  | cons n q ih =>
    intro fs fs2 h
    cases fs with
    | file _ => cases h
    | dir cs0 =>
      cases q with
      | nil =>
        rw [Entry.writeAt] at h
        cases h
        rw [lookup_cons_found (findChild_setChild_self n (.file d) cs0), lookup_nil]
      | cons q1 qs =>
        cases hf : findChild cs0 n with
        | none => rw [Entry.writeAt, hf] at h; cases h
        | some c =>
          rw [writeAt_cons_cons hf] at h
          cases hw : c.writeAt (q1 :: qs) d with
          | none => rw [hw] at h; cases h
          | some c2 =>
            rw [hw] at h
            cases h
            rw [lookup_cons_found (findChild_setChild_self n c2 cs0)]
            exact ih c c2 hw

theorem lookup_writeAt_sibling (d : FileData) (x y : String) (hxy : x ≠ y) :
    ∀ (par : Path) (fs fs2 : Entry),
      fs.writeAt (par ++ [y]) d = some fs2 →
      fs2.lookup (par ++ [x]) = fs.lookup (par ++ [x]) := by
  intro par
  induction par with
  | nil =>
    intro fs fs2 h
    cases fs with
    | file _ => cases h
    | dir cs0 =>
      rw [List.nil_append, Entry.writeAt] at h
      cases h
      rw [List.nil_append, Entry.lookup, Entry.lookup,
        findChild_setChild_other y x _ hxy]
  | cons n p ih =>
    intro fs fs2 h
    cases fs with
    | file _ => cases h
    | dir cs0 =>
      rw [List.cons_append] at h
      cases hp : p ++ [y] with
      | nil => exact absurd hp (by simp)
      | cons q qs =>
        rw [hp] at h
        cases hf : findChild cs0 n with
        | none =>
          rw [Entry.writeAt, hf] at h; cases h
        | some c =>
          rw [writeAt_cons_cons hf] at h
          cases hw : c.writeAt (q :: qs) d with
          | none => rw [hw] at h; cases h
          | some c2 =>
            rw [hw] at h
            cases h
            show (Entry.dir (setChild cs0 n c2)).lookup (n :: (p ++ [x])) =
              (Entry.dir cs0).lookup (n :: (p ++ [x]))
            rw [lookup_cons_found (findChild_setChild_self n c2 cs0),
              lookup_cons_found hf]
            exact ih c c2 (by rw [hp, hw])

theorem removeAt_some_of_lookup (y : String) :
    ∀ (par : Path) (fs e : Entry), fs.lookup (par ++ [y]) = some e →
      ∃ fs2, fs.removeAt (par ++ [y]) = some fs2 := by
  intro par
  induction par with
  | nil =>
    intro fs e h
    cases fs with
    | file _ => simp [Entry.lookup] at h
    | dir cs0 =>
      rw [List.nil_append] at h
      have hany : cs0.any (fun c => c.1 = y) = true := by
        rw [← findChild_isSome_any]
        cases hf : findChild cs0 y with
        | none => rw [lookup_cons_missing hf] at h; cases h
        | some c => rfl
      exact ⟨_, by rw [List.nil_append, Entry.removeAt, if_pos hany]⟩
  | cons n p ih =>
    intro fs e h
    cases fs with
    | file _ => simp [Entry.lookup] at h
    | dir cs0 =>
      rw [List.cons_append] at h
      cases hf : findChild cs0 n with
      | none => rw [lookup_cons_missing hf] at h; cases h
      | some c =>
        rw [lookup_cons_found hf] at h
        obtain ⟨c2, hc2⟩ := ih c e h
        refine ⟨.dir (setChild cs0 n c2), ?_⟩
        rw [List.cons_append]
        cases hp : p ++ [y] with
        | nil => exact absurd hp (by simp)
        | cons q qs =>
          rw [removeAt_cons_cons hf, ← hp, hc2]

theorem lookup_removeAt_sibling (x y : String) (hxy : x ≠ y) :
    ∀ (par : Path) (fs fs2 : Entry),
      fs.removeAt (par ++ [y]) = some fs2 →
      fs2.lookup (par ++ [x]) = fs.lookup (par ++ [x]) := by
  intro par
  induction par with
  | nil =>
    intro fs fs2 h
    cases fs with
    | file _ => cases h
    | dir cs0 =>
      rw [List.nil_append, Entry.removeAt] at h
      by_cases hany : cs0.any (fun c => c.1 = y) = true
      · rw [if_pos hany] at h
        cases h
        rw [List.nil_append, Entry.lookup, Entry.lookup,
          findChild_filter_other y x hxy]
      · rw [if_neg hany] at h; cases h
  | cons n p ih =>
    intro fs fs2 h
    cases fs with
    | file _ => cases h
    | dir cs0 =>
      rw [List.cons_append] at h
      cases hp : p ++ [y] with
      | nil => exact absurd hp (by simp)
      | cons q qs =>
        rw [hp] at h
        cases hf : findChild cs0 n with
        | none => rw [Entry.removeAt, hf] at h; cases h
        | some c =>
          rw [removeAt_cons_cons hf] at h
          cases hr : c.removeAt (q :: qs) with
          | none => rw [hr] at h; cases h
          | some c2 =>
            rw [hr] at h
            cases h
            show (Entry.dir (setChild cs0 n c2)).lookup (n :: (p ++ [x])) =
              (Entry.dir cs0).lookup (n :: (p ++ [x]))
            rw [lookup_cons_found (findChild_setChild_self n c2 cs0),
              lookup_cons_found hf]
            exact ih c c2 (by rw [hp, hr])

theorem zipPath_append (y : String) :
    ∀ par : Path, zipPath (par ++ [y]) = par ++ [y ++ ".zip"] := by
  intro par
  induction par with
  | nil => rfl
  | cons n p ih =>
    cases p with
    | nil => rfl
    | cons m ps =>
      show zipPath (n :: ((m :: ps) ++ [y])) = n :: ((m :: ps) ++ [y ++ ".zip"])
      rw [List.cons_append, zipPath]
      rw [← List.cons_append, ih]

theorem str_ne_append_of_pos (s t : String) (ht : 0 < t.length) :
    s ≠ s ++ t := by
  intro h
  have hl := congrArg String.length h
  rw [String.length_append] at hl
  omega

/-- Claim C7: `zipDicom` on a directory `par ++ [lastc]` exits with a
message when the directory is empty; exits with a message when the archive
cannot be created (modelled by `failZips` listing the paths where the
external archiver produces nothing, with no stale file present); and
otherwise returns the path `<directory>.zip`, at which the archive exists
in the resulting filesystem. -/
theorem C7_zipDicom (failZips : List Path) (fs : Entry) (par : Path)
    (lastc : String) (cs : List (String × Entry))
    (hdir : fs.lookup (par ++ [lastc]) = some (.dir cs)) :
    (cs = [] →
      zipDicom failZips fs (par ++ [lastc]) =
        .error (.systemExit ("The directory " ++ pathToString (par ++ [lastc]) ++
          " is empty and will not be archived."), fs)) ∧
    (cs ≠ [] → zipPath (par ++ [lastc]) ∈ failZips →
      fs.existsAt (zipPath (par ++ [lastc])) = false →
      zipDicom failZips fs (par ++ [lastc]) =
        .error (.systemExit (pathToString (zipPath (par ++ [lastc])) ++
          " could not be created."), fs)) ∧
    (cs ≠ [] → zipPath (par ++ [lastc]) ∉ failZips →
      ∃ fs2, zipDicom failZips fs (par ++ [lastc]) =
          .ok (zipPath (par ++ [lastc]), fs2) ∧
        fs2.existsAt (zipPath (par ++ [lastc])) = true) := by
  have hzne : lastc ≠ lastc ++ ".zip" := str_ne_append_of_pos lastc ".zip" (by decide)
  refine ⟨?_, ?_, ?_⟩
  · intro hcs
    subst hcs
    simp [zipDicom, hdir]
  · intro hcs hmem hnex
    have hie : cs.isEmpty = false := by
      cases cs with
      | nil => exact absurd rfl hcs
      | cons c rest => rfl
    simp [zipDicom, hdir, hie, hmem, Entry.existsAt] at hnex ⊢
    simp [hnex]
  · intro hcs hnmem
    have hie : cs.isEmpty = false := by
      cases cs with
      | nil => exact absurd rfl hcs
      | cons c rest => rfl
    obtain ⟨cs0, hpar⟩ := parent_dir_of_lookup lastc par fs _ hdir
    obtain ⟨fs1, hw⟩ := writeAt_some_of_parent_dir
      (.zipArchive (flattenChildren cs)) (lastc ++ ".zip") par fs cs0 hpar
    have hlook1 : fs1.lookup (par ++ [lastc ++ ".zip"]) =
        some (.file (.zipArchive (flattenChildren cs))) :=
      lookup_writeAt_self _ _ _ _ hw
    have hsib : fs1.lookup (par ++ [lastc]) = fs.lookup (par ++ [lastc]) :=
      lookup_writeAt_sibling _ lastc (lastc ++ ".zip") hzne par fs fs1 hw
    obtain ⟨fs2, hr⟩ := removeAt_some_of_lookup lastc par fs1 _ (hsib.trans hdir)
    have hex2 : fs2.lookup (par ++ [lastc ++ ".zip"]) =
        fs1.lookup (par ++ [lastc ++ ".zip"]) :=
      lookup_removeAt_sibling (lastc ++ ".zip") lastc (fun h => hzne h.symm)
        par fs1 fs2 hr
    have hnmem2 : par ++ [lastc ++ ".zip"] ∉ failZips := by
      rwa [zipPath_append] at hnmem
    refine ⟨fs2, ?_, ?_⟩
    · simp [zipDicom, hdir, hie, zipPath_append, hnmem2, hw, hr, Entry.existsAt,
        hlook1]
    · simp [Entry.existsAt, hex2, hlook1, zipPath_append]

/-- Witness for `C7_zipDicom`: the empty-directory exit, the
archive-creation failure exit, and the successful return, each at a
concrete one-directory filesystem. -/
theorem C7_zipDicom_witness :
    zipDicom [] (.dir [("d", .dir [])]) ["d"] =
      .error (.systemExit "The directory d is empty and will not be archived.",
        .dir [("d", .dir [])]) ∧
    zipDicom [["d.zip"]] (.dir [("d", .dir [("a.dcm", .file (.dicom []))])]) ["d"] =
      .error (.systemExit "d.zip could not be created.",
        .dir [("d", .dir [("a.dcm", .file (.dicom []))])]) ∧
    okValOf (zipDicom [] (.dir [("d", .dir [("a.dcm", .file (.dicom []))])]) ["d"]) =
      some ["d.zip"] := by
  refine ⟨?_, ?_, ?_⟩
  · exact (C7_zipDicom [] (.dir [("d", .dir [])]) [] "d" [] rfl).1 rfl
  · exact (C7_zipDicom [["d.zip"]]
      (.dir [("d", .dir [("a.dcm", .file (.dicom []))])]) [] "d"
      [("a.dcm", .file (.dicom []))] rfl).2.1
      (by simp) (by simp [zipPath]) rfl
  · obtain ⟨fs2, hrun, hex⟩ := (C7_zipDicom []
      (.dir [("d", .dir [("a.dcm", .file (.dicom []))])]) [] "d"
      [("a.dcm", .file (.dicom []))] rfl).2.2 (by simp) (by simp)
    rw [show (["d"] : Path) = [] ++ ["d"] from rfl, hrun]
    rfl

/-- Claim C10: both zapping pipelines create their staging directories
through `createDirectories`, whose directory names come from
`dicom_fields['0010,0010']['Value']`: when the tag is absent, or present
without a `Value` key, the function raises the `KeyError` with the
filesystem unchanged (no directory created yet); when the value is `v`,
the directories it returns are `<root>/<v>` and `<root>/<v>_anonymized`;
and the PyDICOM pipeline propagates the `KeyError`. -/
theorem C10_staging_names (failZips : List Path) (fs : Entry) (folder : Path)
    (fields : FieldDict) (subdirs : List String) :
    (fieldGet fields "0010,0010" = none →
      createDirectories fs folder fields subdirs =
        .error (.keyError "0010,0010", fs)) ∧
    (∀ f, fieldGet fields "0010,0010" = some f → f.Value = none →
      createDirectories fs folder fields subdirs =
        .error (.keyError "Value", fs)) ∧
    (∀ f v dirs fs2, fieldGet fields "0010,0010" = some f → f.Value = some v →
      createDirectories fs folder fields subdirs = .ok (dirs, fs2) →
      dirs = (folder ++ [v], folder ++ [v ++ "_anonymized"])) ∧
    (∀ dicoms subdirs2, fieldGet fields "0010,0010" = none →
      GrepDicomsFromFolder fs folder = .ok (dicoms, subdirs2) →
      Dicom_zapping_PyDicom failZips fs folder fields =
        .error (.keyError "0010,0010", fs)) := by
  refine ⟨?_, ?_, ?_, ?_⟩
  · intro h
    simp [createDirectories, h]
  · intro f hf hv
    simp [createDirectories, hf, hv]
  · intro f v dirs fs2 hf hv hok
    unfold createDirectories at hok
    simp only [hf, hv] at hok
    cases h1 : mkdir fs (folder ++ [v]) with
    | error e => rw [h1] at hok; cases hok
    | ok p1 =>
      obtain ⟨u1, fs1⟩ := p1
      rw [h1] at hok
      dsimp only at hok
      cases h2 : mkdir fs1 (folder ++ [v ++ "_anonymized"]) with
      | error e => rw [h2] at hok; cases hok
      | ok p2 =>
        obtain ⟨u2, fs2b⟩ := p2
        rw [h2] at hok
        dsimp only at hok
        cases h3 : mkSubdirs (folder ++ [v]) (folder ++ [v ++ "_anonymized"])
            fs2b subdirs with
        | error e => rw [h3] at hok; cases hok
        | ok p3 =>
          obtain ⟨u3, fs3⟩ := p3
          rw [h3] at hok
          dsimp only at hok
          cases hok
          rfl
  · intro dicoms subdirs2 hnone hgrep
    unfold Dicom_zapping_PyDicom
    rw [hgrep]
    dsimp only
    simp [createDirectories, hnone]

/-- Witness for `C10_staging_names`: the missing-tag and missing-`Value`
`KeyError`s at concrete inputs, with the filesystem returned untouched. -/
theorem C10_staging_names_witness :
    createDirectories (.dir [("data", .dir [("a.dcm", .file (.dicom []))])])
        ["data"] [] [] =
      .error (.keyError "0010,0010",
        .dir [("data", .dir [("a.dcm", .file (.dicom []))])]) ∧
    createDirectories (.dir [("data", .dir [("a.dcm", .file (.dicom []))])])
        ["data"] [("0010,0010", ⟨"PatientName", true, none, none⟩)] [] =
      .error (.keyError "Value",
        .dir [("data", .dir [("a.dcm", .file (.dicom []))])]) := by
  constructor
  · exact (C10_staging_names [] (.dir [("data", .dir [("a.dcm", .file (.dicom []))])])
      ["data"] [] []).1 rfl
  · exact (C10_staging_names [] (.dir [("data", .dir [("a.dcm", .file (.dicom []))])])
      ["data"] [("0010,0010", ⟨"PatientName", true, none, none⟩)] []).2.1
      ⟨"PatientName", true, none, none⟩ rfl rfl

/-- Root directory for the C8 run: one top-level DICOM file and one
subdirectory holding only an excluded file. -/
def fsC8 : Entry := .dir [("data", .dir
  [("a.dcm", .file (.dicom [("PatientName", "John")])),
   ("sub", .dir [("readme.txt", .file (.text "hi"))])])]

/-- Field dictionary for the C8 run: patient name `John`, editable. -/
def fieldsC8 : FieldDict :=
  [("0010,0010", ⟨"PatientName", true, some "John", none⟩)]

/-- Claim C8: on a valid root (a top-level DICOM file plus a subdirectory
whose only file is excluded), the PyDICOM pipeline produces both archives
and then fails: the cleanup loop of `zip_DICOM_directories` evaluates the
unbound name `dicom_folder`, so the call raises a `NameError` while both
zip files exist in the filesystem at the moment of the raise. -/
theorem C8_cleanup_nameError :
    errOf (Dicom_zapping_PyDicom [] fsC8 ["data"] fieldsC8) =
      some (.nameError "dicom_folder") ∧
    errExistsAt (Dicom_zapping_PyDicom [] fsC8 ["data"] fieldsC8)
      ["data", "John.zip"] = some true ∧
    errExistsAt (Dicom_zapping_PyDicom [] fsC8 ["data"] fieldsC8)
      ["data", "John_anonymized.zip"] = some true :=
  ⟨rfl, rfl, rfl⟩

/-- Flat root directory for the C2 counterexample run. -/
def fsC2 : Entry := .dir [("data", .dir
  [("a.dcm", .file (.dicom [("PatientName", "John")]))])]

/-- Field dictionary for the C2 counterexample run: patient name `John`,
not editable. -/
def fieldsC2 : FieldDict :=
  [("0010,0010", ⟨"PatientName", false, some "John", none⟩)]

/-- Claim C2, counterexample: on a flat root with one discovered file the
pipeline succeeds and returns the two archive paths, but the two staging
directories do not exist in the final filesystem — `zipDicom` deletes each
directory right after compressing it — contradicting the claim that the
two sibling directories holding the copies exist after the run. -/
theorem C2_counterexample :
    okValOf (Dicom_zapping_PyDicom [] fsC2 ["data"] fieldsC2) =
      some (["data", "John_anonymized.zip"], ["data", "John.zip"]) ∧
    okLookup (Dicom_zapping_PyDicom [] fsC2 ["data"] fieldsC2)
      ["data", "John"] = some none ∧
    okLookup (Dicom_zapping_PyDicom [] fsC2 ["data"] fieldsC2)
      ["data", "John_anonymized"] = some none :=
  ⟨rfl, rfl, rfl⟩

/-! Flat-root run of the PyDICOM pipeline: helper shapes and lemmas. -/

/-- A filesystem whose root holds one directory `data` with the given
children. -/
def dataFS (cs : List (String × Entry)) : Entry := .dir [("data", .dir cs)]

/-- Children of a flat directory holding the given DICOM files. -/
def dicomChildren (files : List (String × Dataset)) : List (String × Entry) :=
  files.map (fun nd => (nd.1, .file (.dicom nd.2)))

/-- The same files after the zapping loop rewrote each header. -/
def zappedChildren (fields : FieldDict) (files : List (String × Dataset)) :
    List (String × Entry) :=
  files.map (fun nd => (nd.1, .file (.dicom (zapDataset nd.2 fields))))

theorem findChild_append_skip (x : String) :
    ∀ (l cs : List (String × Entry)), (∀ c ∈ l, (c : String × Entry).1 ≠ x) →
      findChild (l ++ cs) x = findChild cs x := by
  intro l cs h
  induction l with
  | nil => rfl
  | cons c rest ih =>
    rw [List.cons_append, findChild_cons,
      if_neg (h c (List.mem_cons_self c rest))]
    exact ih (fun d hd => h d (List.mem_cons_of_mem c hd))

theorem setChild_append_skip (x : String) (e : Entry) :
    ∀ (l cs : List (String × Entry)), (∀ c ∈ l, (c : String × Entry).1 ≠ x) →
      setChild (l ++ cs) x e = l ++ setChild cs x e := by
  intro l cs h
  induction l with
  | nil => rfl
  | cons c rest ih =>
    rw [List.cons_append, setChild, if_neg (h c (List.mem_cons_self c rest)),
      ih (fun d hd => h d (List.mem_cons_of_mem c hd)), List.cons_append]

theorem setChild_fresh (x : String) (e : Entry) :
    ∀ cs : List (String × Entry), (∀ c ∈ cs, (c : String × Entry).1 ≠ x) →
      setChild cs x e = cs ++ [(x, e)] := by
  intro cs h
  induction cs with
  | nil => rfl
  | cons c rest ih =>
    rw [setChild, if_neg (h c (List.mem_cons_self c rest)),
      ih (fun d hd => h d (List.mem_cons_of_mem c hd)), List.cons_append]

theorem filter_fresh (x : String) :
    ∀ cs : List (String × Entry), (∀ c ∈ cs, (c : String × Entry).1 ≠ x) →
      cs.filter (fun c => ¬ c.1 = x) = cs := by
  intro cs h
  induction cs with
  | nil => rfl
  | cons c rest ih =>
    rw [List.filter_cons, if_pos (by simp [h c (List.mem_cons_self c rest)]),
      ih (fun d hd => h d (List.mem_cons_of_mem c hd))]

theorem any_fresh (x : String) :
    ∀ cs : List (String × Entry), (∀ c ∈ cs, (c : String × Entry).1 ≠ x) →
      cs.any (fun c => c.1 = x) = false := by
  intro cs h
  rw [List.any_eq_false]
  intro c hc
  simp [h c hc]

theorem dicomChildren_fresh (x : String) (files : List (String × Dataset))
    (h : ∀ n ∈ files.map (fun nd => (nd : String × Dataset).1), n ≠ x) :
    ∀ c ∈ dicomChildren files, (c : String × Entry).1 ≠ x := by
  intro c hc
  rcases List.mem_map.mp hc with ⟨nd, hnd, rfl⟩
  exact h nd.1 (List.mem_map_of_mem _ hnd)

theorem zappedChildren_fresh (fields : FieldDict) (x : String)
    (files : List (String × Dataset))
    (h : ∀ n ∈ files.map (fun nd => (nd : String × Dataset).1), n ≠ x) :
    ∀ c ∈ zappedChildren fields files, (c : String × Entry).1 ≠ x := by
  intro c hc
  rcases List.mem_map.mp hc with ⟨nd, hnd, rfl⟩
  exact h nd.1 (List.mem_map_of_mem _ hnd)

theorem dirNames_dicomChildren (files : List (String × Dataset)) :
    dirNames (dicomChildren files) = [] := by
  induction files with
  | nil => rfl
  | cons nd rest ih => simp [dicomChildren, dirNames]

theorem fileNames_dicomChildren (files : List (String × Dataset)) :
    fileNames (dicomChildren files) =
      files.map (fun nd => (nd : String × Dataset).1) := by
  induction files with
  | nil => rfl
  | cons nd rest ih => simpa [dicomChildren, fileNames] using ih

theorem walkChildren_dicomChildren (p : Path) (files : List (String × Dataset)) :
    walkChildren p (dicomChildren files) = [] := by
  induction files with
  | nil => rfl
  | cons nd rest ih => simpa [dicomChildren, walkChildren, walkEntry] using ih

theorem flattenChildren_dicomChildren (files : List (String × Dataset)) :
    flattenChildren (dicomChildren files) =
      files.map (fun nd => ([(nd : String × Dataset).1], FileData.dicom nd.2)) := by
  induction files with
  | nil => rfl
  | cons nd rest ih => simpa [dicomChildren, flattenChildren, flattenEntry] using ih

theorem flattenChildren_zappedChildren (fields : FieldDict)
    (files : List (String × Dataset)) :
    flattenChildren (zappedChildren fields files) =
      files.map (fun nd =>
        ([(nd : String × Dataset).1], FileData.dicom (zapDataset nd.2 fields))) := by
  induction files with
  | nil => rfl
  | cons nd rest ih => simpa [zappedChildren, flattenChildren, flattenEntry] using ih

theorem osWalk_flat (files : List (String × Dataset)) :
    osWalk (dataFS (dicomChildren files)) ["data"] =
      [(["data"], [], files.map (fun nd => (nd : String × Dataset).1))] := by
  have hfd : findChild [("data", Entry.dir (dicomChildren files))] "data" =
      some (.dir (dicomChildren files)) := by simp [findChild]
  simp [osWalk, dataFS, lookup_cons_found hfd, lookup_nil, walkEntry,
    dirNames_dicomChildren, fileNames_dicomChildren, walkChildren_dicomChildren]

theorem grep_flat (files : List (String × Dataset)) (hne : files ≠ [])
    (hkeep : ∀ n ∈ files.map (fun nd => (nd : String × Dataset).1),
      isExcluded n = false) :
    GrepDicomsFromFolder (dataFS (dicomChildren files)) ["data"] =
      .ok (files.map (fun nd => ["data", (nd : String × Dataset).1]), []) := by
  rw [GrepDicomsFromFolder, osWalk_flat]
  have hlen : (files.map (fun nd => (nd : String × Dataset).1)).length ≠ 0 := by
    simpa using fun h => hne (List.eq_nil_of_length_eq_zero (by simpa using h))
  rw [grepLoop, if_pos (Or.inl hlen)]
  have hfilter : (files.map (fun nd => (nd : String × Dataset).1)).filter
      (fun f => ¬ isExcluded f) = files.map (fun nd => (nd : String × Dataset).1) := by
    rw [List.filter_eq_self]
    intro a ha
    simp [hkeep a ha]
  rw [hfilter, grepLoop]
  simp [List.map_map]

theorem findChild_data (e : Entry) :
    findChild [("data", e)] "data" = some e := by simp [findChild]

theorem lookup_dataFS (cs : List (String × Entry)) (p : Path) :
    (dataFS cs).lookup ("data" :: p) = (Entry.dir cs).lookup p :=
  lookup_cons_found (findChild_data _) p

theorem lookup_single (cs : List (String × Entry)) (x : String) :
    (Entry.dir cs).lookup [x] = findChild cs x := by
  cases hf : findChild cs x with
  | none => rw [lookup_cons_missing hf]
  | some c => rw [lookup_cons_found hf, lookup_nil]

theorem writeAt_dataFS (cs : List (String × Entry)) (q : String) (qs : Path)
    (d : FileData) :
    (dataFS cs).writeAt ("data" :: q :: qs) d =
      ((Entry.dir cs).writeAt (q :: qs) d).map
        (fun e2 => .dir [("data", e2)]) := by
  rw [dataFS, writeAt_cons_cons (findChild_data _)]
  cases (Entry.dir cs).writeAt (q :: qs) d <;> simp [setChild]

theorem removeAt_dataFS (cs : List (String × Entry)) (q : String) (qs : Path) :
    (dataFS cs).removeAt ("data" :: q :: qs) =
      ((Entry.dir cs).removeAt (q :: qs)).map
        (fun e2 => .dir [("data", e2)]) := by
  rw [dataFS, removeAt_cons_cons (findChild_data _)]
  cases (Entry.dir cs).removeAt (q :: qs) <;> simp [setChild]

theorem insertAt_cons_cons {cs0 : List (String × Entry)} {n : String} {c : Entry}
    (hf : findChild cs0 n = some c) (q : String) (qs : Path) (e : Entry) :
    (Entry.dir cs0).insertAt (n :: q :: qs) e =
      match c.insertAt (q :: qs) e with
      | some c2 => some (.dir (setChild cs0 n c2))
      | none => none := by
  rw [Entry.insertAt, hf]

theorem mkdir_dataFS (cs : List (String × Entry)) (x : String)
    (hfresh : ∀ c ∈ cs, (c : String × Entry).1 ≠ x) :
    mkdir (dataFS cs) ["data", x] = .ok ((), dataFS (cs ++ [(x, .dir [])])) := by
  unfold mkdir
  rw [dataFS, insertAt_cons_cons (findChild_data _)]
  rw [show (Entry.dir cs).insertAt [x] (.dir []) =
    if cs.any (fun c => c.1 = x) then none
    else some (.dir (cs ++ [(x, .dir [])])) from rfl]
  rw [any_fresh x cs hfresh]
  simp [setChild, dataFS]

theorem findChild_pair (l : List (String × Entry)) (v vA : String) (A B : Entry)
    (hl : ∀ c ∈ l, (c : String × Entry).1 ≠ vA) (hv : v ≠ vA) :
    findChild (l ++ [(v, A), (vA, B)]) vA = some B := by
  rw [findChild_append_skip vA l _ hl, findChild_cons, if_neg hv,
    findChild_cons, if_pos rfl]

theorem findChild_pair_left (l : List (String × Entry)) (v vA : String)
    (A B : Entry) (hl : ∀ c ∈ l, (c : String × Entry).1 ≠ v) :
    findChild (l ++ [(v, A), (vA, B)]) v = some A := by
  rw [findChild_append_skip v l _ hl, findChild_cons, if_pos rfl]

theorem setChild_pair (l : List (String × Entry)) (v vA : String) (A B e : Entry)
    (hl : ∀ c ∈ l, (c : String × Entry).1 ≠ vA) (hv : v ≠ vA) :
    setChild (l ++ [(v, A), (vA, B)]) vA e = l ++ [(v, A), (vA, e)] := by
  rw [setChild_append_skip vA e l _ hl, setChild, if_neg hv, setChild, if_pos rfl]

theorem setChild_pair_left (l : List (String × Entry)) (v vA : String)
    (A B e : Entry) (hl : ∀ c ∈ l, (c : String × Entry).1 ≠ v) :
    setChild (l ++ [(v, A), (vA, B)]) v e = l ++ [(v, e), (vA, B)] := by
  rw [setChild_append_skip v e l _ hl, setChild, if_pos rfl]

theorem createDirectories_flat (files : List (String × Dataset))
    (fields : FieldDict) (fv : FieldEntry) (v : String)
    (hf : fieldGet fields "0010,0010" = some fv) (hfv : fv.Value = some v)
    (hfr : ∀ n ∈ files.map (fun nd => (nd : String × Dataset).1),
      n ≠ v ∧ n ≠ v ++ "_anonymized") :
    createDirectories (dataFS (dicomChildren files)) ["data"] fields [] =
      .ok ((["data", v], ["data", v ++ "_anonymized"]),
        dataFS (dicomChildren files ++
          [(v, .dir []), (v ++ "_anonymized", .dir [])])) := by
  have hVA : v ≠ v ++ "_anonymized" := str_ne_append_of_pos _ _ (by decide)
  have h1 := mkdir_dataFS (dicomChildren files) v
    (dicomChildren_fresh v files (fun n hn => (hfr n hn).1))
  have h2 := mkdir_dataFS (dicomChildren files ++ [(v, .dir [])])
    (v ++ "_anonymized") (by
      intro c hc
      rcases List.mem_append.mp hc with hc | hc
      · exact dicomChildren_fresh (v ++ "_anonymized") files
          (fun n hn => (hfr n hn).2) c hc
      · rcases List.mem_singleton.mp hc with rfl
        exact hVA)
  unfold createDirectories
  simp only [hf, hfv, List.cons_append, List.nil_append]
  rw [h1]
  dsimp only
  rw [h2]
  dsimp only
  rw [mkSubdirs]
  simp [List.append_assoc]

theorem getLast_pair (a b : String) : ([a, b] : Path).getLast? = some b := rfl

theorem copyIntoDir_dataFS (CS : List (String × Entry)) (src dst : String)
    (ds : Dataset) (inner : List (String × Entry))
    (hsrc : findChild CS src = some (.file (.dicom ds)))
    (hdst : findChild CS dst = some (.dir inner)) :
    copyIntoDir (dataFS CS) ["data", src] ["data", dst] =
      .ok ((), dataFS (setChild CS dst
        (.dir (setChild inner src (.file (.dicom ds)))))) := by
  unfold copyIntoDir
  rw [lookup_dataFS, lookup_single, hsrc, getLast_pair,
    lookup_dataFS, lookup_single, hdst]
  dsimp only
  simp only [List.cons_append, List.nil_append]
  rw [writeAt_dataFS, writeAt_cons_cons hdst]
  rw [show (Entry.dir inner).writeAt [src] (.dicom ds) =
    some (.dir (setChild inner src (.file (.dicom ds)))) from rfl]
  rfl

theorem removeAt_dataFS_any (CS : List (String × Entry)) (x : String)
    (hx : CS.any (fun c => c.1 = x) = true) :
    (dataFS CS).removeAt ["data", x] =
      some (.dir [("data", .dir (CS.filter (fun c => ¬ c.1 = x)))]) := by
  rw [removeAt_dataFS]
  rw [show (Entry.dir CS).removeAt [x] =
    (if CS.any (fun c => c.1 = x) then
      some (.dir (CS.filter (fun c => ¬ c.1 = x))) else none) from rfl]
  rw [if_pos hx]
  rfl

theorem moveIntoDir_dataFS (CS : List (String × Entry)) (src dst : String)
    (ds : Dataset) (inner : List (String × Entry)) (hsd : src ≠ dst)
    (hsrc : findChild CS src = some (.file (.dicom ds)))
    (hdst : findChild CS dst = some (.dir inner)) :
    moveIntoDir (dataFS CS) ["data", src] ["data", dst] =
      .ok ((), dataFS ((setChild CS dst
        (.dir (setChild inner src (.file (.dicom ds))))).filter
          (fun c => ¬ c.1 = src))) := by
  unfold moveIntoDir
  rw [copyIntoDir_dataFS CS src dst ds inner hsrc hdst]
  dsimp only
  have hany : (setChild CS dst
      (.dir (setChild inner src (.file (.dicom ds))))).any
        (fun c => c.1 = src) = true := by
    rw [← findChild_isSome_any,
      findChild_setChild_other dst src _ hsd, hsrc]
    rfl
  rw [removeAt_dataFS_any _ src hany]
  rfl

theorem actual_zap_dataFS (CS : List (String × Entry)) (x y : String)
    (ds : Dataset) (inner : List (String × Entry)) (fields : FieldDict)
    (hfx : findChild CS x = some (.dir inner))
    (hfy : findChild inner y = some (.file (.dicom ds))) :
    actual_PyDICOM_zapping (dataFS CS) ["data", x, y] fields =
      .ok ((), dataFS (setChild CS x
        (.dir (setChild inner y (.file (.dicom (zapDataset ds fields))))))) := by
  unfold actual_PyDICOM_zapping
  rw [lookup_dataFS, lookup_cons_found hfx, lookup_single, hfy]
  dsimp only
  rw [writeAt_dataFS, writeAt_cons_cons hfx]
  rw [show (Entry.dir inner).writeAt [y] (.dicom (zapDataset ds fields)) =
    some (.dir (setChild inner y (.file (.dicom (zapDataset ds fields))))) from rfl]
  rfl

theorem dicomChildren_cons (nd : String × Dataset) (rest : List (String × Dataset)) :
    dicomChildren (nd :: rest) =
      (nd.1, Entry.file (.dicom nd.2)) :: dicomChildren rest := rfl

theorem dicomChildren_append (a b : List (String × Dataset)) :
    dicomChildren (a ++ b) = dicomChildren a ++ dicomChildren b := by
  simp [dicomChildren]

theorem stageLoop_flat (v vA : String) (hv : v ≠ vA) :
    ∀ (rem done : List (String × Dataset)),
      ((done ++ rem).map (fun nd => (nd : String × Dataset).1)).Nodup →
      (∀ n ∈ (done ++ rem).map (fun nd => (nd : String × Dataset).1),
        n ≠ v ∧ n ≠ vA) →
      stageLoop ["data", vA] ["data", v]
        (dataFS (dicomChildren rem ++
          [(v, .dir (dicomChildren done)), (vA, .dir (dicomChildren done))]))
        (rem.map (fun nd => ["data", (nd : String × Dataset).1])) =
      .ok ((), dataFS
        [(v, .dir (dicomChildren (done ++ rem))),
         (vA, .dir (dicomChildren (done ++ rem)))]) := by
  intro rem
  induction rem with
  | nil =>
    intro done _ _
    simp [stageLoop, dicomChildren, dataFS]
  | cons nd rest ih =>
    intro done hnodup hfr
    have hndv : nd.1 ≠ v := (hfr nd.1 (List.mem_map_of_mem _ (by simp))).1
    have hndvA : nd.1 ≠ vA := (hfr nd.1 (List.mem_map_of_mem _ (by simp))).2
    have hnods : nd.1 ∉ done.map (fun nd => (nd : String × Dataset).1) ∧
        nd.1 ∉ rest.map (fun nd => (nd : String × Dataset).1) := by
      rw [List.map_append, List.map_cons] at hnodup
      obtain ⟨hA, hB, hdisj⟩ := List.nodup_append.mp hnodup
      exact ⟨fun hmem2 => (hdisj hmem2) (List.mem_cons_self _ _),
        (List.nodup_cons.mp hB).1⟩
    have hfrCons : ∀ n ∈ (nd :: rest).map (fun nd => (nd : String × Dataset).1),
        n ≠ v ∧ n ≠ vA :=
      fun n hn => hfr n (by rw [List.map_append]; exact List.mem_append_right _ hn)
    have hdcCons_v : ∀ c ∈ dicomChildren (nd :: rest), (c : String × Entry).1 ≠ v :=
      dicomChildren_fresh v _ (fun n hn => (hfrCons n hn).1)
    have hdcCons_vA : ∀ c ∈ dicomChildren (nd :: rest), (c : String × Entry).1 ≠ vA :=
      dicomChildren_fresh vA _ (fun n hn => (hfrCons n hn).2)
    have hinner : ∀ c ∈ dicomChildren done, (c : String × Entry).1 ≠ nd.1 :=
      dicomChildren_fresh nd.1 done (fun n hn hne => hnods.1 (hne ▸ hn))
    have hsrc1 : findChild (dicomChildren (nd :: rest) ++
        [(v, Entry.dir (dicomChildren done)), (vA, Entry.dir (dicomChildren done))])
        nd.1 = some (.file (.dicom nd.2)) := by
      rw [dicomChildren_cons, List.cons_append, findChild_cons, if_pos rfl]
    have hdst1 := findChild_pair (dicomChildren (nd :: rest)) v vA
      (Entry.dir (dicomChildren done)) (Entry.dir (dicomChildren done)) hdcCons_vA hv
    have hcopy := copyIntoDir_dataFS _ nd.1 vA nd.2 (dicomChildren done) hsrc1 hdst1
    rw [setChild_fresh nd.1 _ _ hinner, setChild_pair _ v vA _ _ _ hdcCons_vA hv,
      show dicomChildren done ++ [(nd.1, Entry.file (.dicom nd.2))] =
        dicomChildren (done ++ [nd]) from (dicomChildren_append done [nd]).symm]
      at hcopy
    have hsrc2 : findChild (dicomChildren (nd :: rest) ++
        [(v, Entry.dir (dicomChildren done)),
         (vA, Entry.dir (dicomChildren (done ++ [nd])))]) nd.1 =
        some (.file (.dicom nd.2)) := by
      rw [dicomChildren_cons, List.cons_append, findChild_cons, if_pos rfl]
    have hdst2 := findChild_pair_left (dicomChildren (nd :: rest)) v vA
      (Entry.dir (dicomChildren done)) (Entry.dir (dicomChildren (done ++ [nd])))
      hdcCons_v
    have hmove := moveIntoDir_dataFS _ nd.1 v nd.2 (dicomChildren done) hndv
      hsrc2 hdst2
    rw [setChild_fresh nd.1 _ _ hinner,
      setChild_pair_left _ v vA _ _ _ hdcCons_v,
      show dicomChildren done ++ [(nd.1, Entry.file (.dicom nd.2))] =
        dicomChildren (done ++ [nd]) from (dicomChildren_append done [nd]).symm]
      at hmove
    have hfilter : (dicomChildren (nd :: rest) ++
        [(v, Entry.dir (dicomChildren (done ++ [nd]))),
         (vA, Entry.dir (dicomChildren (done ++ [nd])))]).filter
          (fun c => ¬ c.1 = nd.1) =
        dicomChildren rest ++
          [(v, Entry.dir (dicomChildren (done ++ [nd]))),
           (vA, Entry.dir (dicomChildren (done ++ [nd])))] := by
      rw [dicomChildren_cons, List.cons_append, List.filter_cons,
        if_neg (by simp)]
      apply filter_fresh
      intro c hc
      rcases List.mem_append.mp hc with hc | hc
      · exact dicomChildren_fresh nd.1 rest
          (fun n hn hne => hnods.2 (hne ▸ hn)) c hc
      · rcases List.mem_cons.mp hc with rfl | hc
        · exact fun h => hndv h.symm
        · rcases List.mem_singleton.mp hc with rfl
          exact fun h => hndvA h.symm
    rw [hfilter] at hmove
    rw [List.map_cons, stageLoop, hcopy]
    dsimp only
    rw [hmove]
    dsimp only
    have ih2 := ih (done ++ [nd])
      (by rw [List.append_assoc, List.singleton_append]; exact hnodup)
      (by rw [List.append_assoc, List.singleton_append]; exact hfr)
    simp only [List.append_assoc, List.singleton_append] at ih2
    exact ih2

theorem zappedChildren_append (fields : FieldDict)
    (a b : List (String × Dataset)) :
    zappedChildren fields (a ++ b) =
      zappedChildren fields a ++ zappedChildren fields b := by
  simp [zappedChildren]

theorem listReplaceFuel_not_contains (pat rep : List Char) :
    ∀ (fuel : Nat) (s : List Char), listContainsSub pat s = false →
      listReplaceFuel pat rep fuel s = s := by
  intro fuel
  induction fuel with
  | zero => intro s _; rfl
  | succ f ih =>
    intro s h
    cases s with
    | nil => rfl
    | cons c rest =>
      rw [listContainsSub, Bool.or_eq_false_iff] at h
      rw [listReplaceFuel, if_neg (fun hcond => by simp [h.1] at hcond),
        ih rest h.2]

theorem listReplaceFuel_single (pat rep tail : List Char) (hpat : pat ≠ [])
    (htail : listContainsSub pat tail = false) (fuel : Nat) :
    listReplaceFuel pat rep (fuel + 1) (pat ++ tail) = rep ++ tail := by
  cases pat with
  | nil => exact absurd rfl hpat
  | cons p ps =>
    rw [List.cons_append, listReplaceFuel]
    rw [if_pos ⟨by
        rw [← List.cons_append]
        exact List.isPrefixOf_iff_prefix.mpr (List.prefix_append _ _),
      by simp⟩]
    congr 1
    rw [show (p :: (ps ++ tail)).drop (p :: ps).length = tail from by
      rw [← List.cons_append, List.drop_left]]
    exact listReplaceFuel_not_contains (p :: ps) rep fuel tail htail

theorem splitAux_sep (l rest : List Char) (hl : ∀ c ∈ l, c ≠ '/') :
    ∀ acc, splitAux (l ++ '/' :: rest) acc =
      String.mk (acc.reverse ++ l) :: splitAux rest [] := by
  induction l with
  | nil => intro acc; simp [splitAux]
  | cons c l2 ih =>
    intro acc
    rw [List.cons_append, splitAux, if_neg (hl c (List.mem_cons_self c l2)),
      ih (fun d hd => hl d (List.mem_cons_of_mem c hd)) (c :: acc)]
    simp [List.reverse_cons, List.append_assoc]

theorem splitAux_last (l : List Char) (hl : ∀ c ∈ l, c ≠ '/') :
    ∀ acc, splitAux l acc = [String.mk (acc.reverse ++ l)] := by
  induction l with
  | nil => intro acc; simp [splitAux]
  | cons c l2 ih =>
    intro acc
    rw [splitAux, if_neg (hl c (List.mem_cons_self c l2)),
      ih (fun d hd => hl d (List.mem_cons_of_mem c hd)) (c :: acc)]
    simp [List.reverse_cons, List.append_assoc]

/-- When a discovered file name contains neither the separator nor the
folder string `data`, the substitution of line 225 rewrites exactly the
leading folder occurrence and the rebased string splits back into the
expected components. -/
theorem rebase_clean (vA n : String)
    (hA : ('/' : Char) ∉ vA.data)
    (hn : ('/' : Char) ∉ n.data)
    (hc : listContainsSub ("data".data) n.data = false) :
    rebasePath ["data"] ["data", vA] ["data", n] = ["data", vA, n] := by
  have hpat : ("data".data : List Char) ≠ [] := by decide
  have htail : listContainsSub ("data".data) ('/' :: n.data) = false := hc
  have h4 : ("data".data : List Char).length = 4 := rfl
  have hvA2 : ∀ c ∈ vA.data, c ≠ '/' := fun c hcm he => hA (he ▸ hcm)
  have hn2 : ∀ c ∈ n.data, c ≠ '/' := fun c hcm he => hn (he ▸ hcm)
  unfold rebasePath strReplace splitPath
  rw [show (pathToString ["data", n]).data = "data".data ++ '/' :: n.data from rfl]
  rw [show ("data".data ++ '/' :: n.data).length = (4 + n.data.length) + 1 from by
    rw [List.length_append, h4, List.length_cons]
    omega]
  rw [show (pathToString ["data"]).data = ("data".data : List Char) from rfl]
  rw [listReplaceFuel_single ("data".data) (pathToString ["data", vA]).data
    ('/' :: n.data) hpat htail (4 + n.data.length)]
  rw [show (pathToString ["data", vA]).data ++ '/' :: n.data =
    "data".data ++ '/' :: (vA.data ++ '/' :: n.data) from rfl]
  rw [splitAux_sep ("data".data) _ (by decide) [],
    splitAux_sep vA.data _ hvA2 [], splitAux_last n.data hn2 []]
  rfl

theorem zapLoop_flat (v vA : String) (hv : v ≠ vA)
    (hAslash : ('/' : Char) ∉ vA.data) (fields : FieldDict)
    (E : Entry) :
    ∀ (rem done : List (String × Dataset)),
      ((done ++ rem).map (fun nd => (nd : String × Dataset).1)).Nodup →
      (∀ n ∈ (done ++ rem).map (fun nd => (nd : String × Dataset).1),
        n ≠ v ∧ n ≠ vA) →
      (∀ n ∈ (done ++ rem).map (fun nd => (nd : String × Dataset).1),
        ('/' : Char) ∉ n.data ∧ listContainsSub ("data".data) n.data = false) →
      zapLoop ["data"] ["data", vA] fields
        (dataFS [(v, E),
          (vA, .dir (zappedChildren fields done ++ dicomChildren rem))])
        (rem.map (fun nd => ["data", (nd : String × Dataset).1])) =
      .ok ((), dataFS [(v, E),
        (vA, .dir (zappedChildren fields (done ++ rem)))]) := by
  intro rem
  induction rem with
  | nil =>
    intro done _ _ _
    simp [zapLoop, dicomChildren, dataFS]
  | cons nd rest ih =>
    intro done hnodup hfr hclean
    have hnods : nd.1 ∉ done.map (fun nd => (nd : String × Dataset).1) ∧
        nd.1 ∉ rest.map (fun nd => (nd : String × Dataset).1) := by
      rw [List.map_append, List.map_cons] at hnodup
      obtain ⟨hA, hB, hdisj⟩ := List.nodup_append.mp hnodup
      exact ⟨fun hmem2 => (hdisj hmem2) (List.mem_cons_self _ _),
        (List.nodup_cons.mp hB).1⟩
    have hzfresh : ∀ c ∈ zappedChildren fields done, (c : String × Entry).1 ≠ nd.1 :=
      zappedChildren_fresh fields nd.1 done (fun n hn hne => hnods.1 (hne ▸ hn))
    have hguard : (pathToString ["data", nd.1]).length ≠ 0 := by
      rw [show pathToString ["data", nd.1] = "data/" ++ nd.1 from rfl,
        String.length_append]
      have h5 : ("data/").length = 5 := rfl
      omega
    have hcl := hclean nd.1 (List.mem_map_of_mem _ (by simp))
    have hreb : rebasePath ["data"] ["data", vA] ["data", nd.1] =
        ["data", vA, nd.1] := rebase_clean vA nd.1 hAslash hcl.1 hcl.2
    have hfx : findChild [(v, E),
        (vA, Entry.dir (zappedChildren fields done ++ dicomChildren (nd :: rest)))]
        vA = some (.dir (zappedChildren fields done ++ dicomChildren (nd :: rest))) := by
      rw [findChild_cons, if_neg hv, findChild_cons, if_pos rfl]
    have hfy : findChild (zappedChildren fields done ++ dicomChildren (nd :: rest))
        nd.1 = some (.file (.dicom nd.2)) := by
      rw [findChild_append_skip nd.1 _ _ hzfresh, dicomChildren_cons,
        findChild_cons, if_pos rfl]
    have hzap := actual_zap_dataFS _ vA nd.1 nd.2 _ fields hfx hfy
    rw [List.map_cons, zapLoop, hreb, if_pos hguard, hzap]
    dsimp only
    rw [setChild_append_skip nd.1 _ _ _ hzfresh, dicomChildren_cons]
    rw [show setChild ((nd.1, Entry.file (.dicom nd.2)) :: dicomChildren rest)
        nd.1 (Entry.file (.dicom (zapDataset nd.2 fields))) =
        (nd.1, Entry.file (.dicom (zapDataset nd.2 fields))) :: dicomChildren rest
      from by simp [setChild]]
    rw [show ∀ B : Entry, setChild [(v, E), (vA, B)] vA
        (Entry.dir (zappedChildren fields done ++
          (nd.1, Entry.file (.dicom (zapDataset nd.2 fields))) ::
            dicomChildren rest)) =
        [(v, E), (vA, Entry.dir (zappedChildren fields done ++
          (nd.1, Entry.file (.dicom (zapDataset nd.2 fields))) ::
            dicomChildren rest))]
      from fun B => by simp [setChild, hv]]
    have ih2 := ih (done ++ [nd])
      (by rw [List.append_assoc, List.singleton_append]; exact hnodup)
      (by rw [List.append_assoc, List.singleton_append]; exact hfr)
      (by rw [List.append_assoc, List.singleton_append]; exact hclean)
    rw [List.append_assoc done [nd] rest, List.singleton_append,
      zappedChildren_append fields done [nd],
      show zappedChildren fields [nd] =
        [(nd.1, Entry.file (.dicom (zapDataset nd.2 fields)))] from rfl,
      List.append_assoc, List.singleton_append] at ih2
    exact ih2

theorem append_ne_append_of_length (v s t : String) (h : s.length ≠ t.length) :
    v ++ s ≠ v ++ t := by
  intro he
  have hl := congrArg String.length he
  rw [String.length_append, String.length_append] at hl
  omega

theorem zipDicom_flat (x : String) (CS inner : List (String × Entry))
    (hfind : findChild CS x = some (.dir inner))
    (hinner : inner ≠ [])
    (hfreshzip : ∀ c ∈ CS, (c : String × Entry).1 ≠ x ++ ".zip") :
    zipDicom [] (dataFS CS) ["data", x] =
      .ok (["data", x ++ ".zip"],
        dataFS (CS.filter (fun c => ¬ c.1 = x) ++
          [(x ++ ".zip", .file (.zipArchive (flattenChildren inner)))])) := by
  have hie : inner.isEmpty = false := by
    cases inner with
    | nil => exact absurd rfl hinner
    | cons c r => rfl
  have hxzip : x ≠ x ++ ".zip" := str_ne_append_of_pos x ".zip" (by decide)
  have harch : zipPath ["data", x] = ["data", x ++ ".zip"] := rfl
  have hw : (dataFS CS).writeAt ["data", x ++ ".zip"]
      (.zipArchive (flattenChildren inner)) =
      some (.dir [("data", .dir (CS ++
        [(x ++ ".zip", Entry.file (.zipArchive (flattenChildren inner)))]))]) := by
    rw [writeAt_dataFS,
      show (Entry.dir CS).writeAt [x ++ ".zip"] (.zipArchive (flattenChildren inner)) =
        some (.dir (setChild CS (x ++ ".zip")
          (.file (.zipArchive (flattenChildren inner))))) from rfl,
      setChild_fresh _ _ _ hfreshzip]
    rfl
  have hex : (Entry.dir [("data", Entry.dir (CS ++
      [(x ++ ".zip", Entry.file (.zipArchive (flattenChildren inner)))]))]).existsAt
      ["data", x ++ ".zip"] = true := by
    rw [Entry.existsAt,
      show (Entry.dir [("data", Entry.dir (CS ++
        [(x ++ ".zip", Entry.file (.zipArchive (flattenChildren inner)))]))]) =
        dataFS (CS ++ [(x ++ ".zip",
          Entry.file (.zipArchive (flattenChildren inner)))]) from rfl,
      lookup_dataFS, lookup_single, findChild_append_skip _ _ _ hfreshzip,
      findChild_cons, if_pos rfl]
    rfl
  have hany : (CS ++ [(x ++ ".zip",
      Entry.file (.zipArchive (flattenChildren inner)))]).any
      (fun c => c.1 = x) = true := by
    rw [List.any_append]
    have h1 : CS.any (fun c => c.1 = x) = true := by
      rw [← findChild_isSome_any, hfind]; rfl
    rw [h1]
    rfl
  have hrm := removeAt_dataFS_any
    (CS ++ [(x ++ ".zip", Entry.file (.zipArchive (flattenChildren inner)))])
    x hany
  have hzx : ¬ (x ++ ".zip") = x := fun h => hxzip h.symm
  rw [List.filter_append,
    show ([(x ++ ".zip", Entry.file (.zipArchive (flattenChildren inner)))].filter
      (fun c => ¬ c.1 = x)) =
      [(x ++ ".zip", Entry.file (.zipArchive (flattenChildren inner)))] from by
        simp [hzx]] at hrm
  unfold zipDicom
  rw [lookup_dataFS, lookup_single, hfind]
  dsimp only
  rw [hie]
  simp only [Bool.false_eq_true, if_false]
  rw [harch]
  have hrm2 : (Entry.dir [("data", Entry.dir (CS ++
      [(x ++ ".zip", Entry.file (.zipArchive (flattenChildren inner)))]))]).removeAt
      ["data", x] =
      some (.dir [("data", .dir
        ((CS.filter (fun c => ¬ c.1 = x)) ++
          [(x ++ ".zip", Entry.file (.zipArchive (flattenChildren inner)))]))]) := hrm
  rw [if_neg (List.not_mem_nil _), hw]
  dsimp only [Option.getD]
  rw [hex, if_pos rfl, hrm2]
  rfl

theorem zip_dirs_flat (v vA : String) (hv : v ≠ vA)
    (X Y : List (String × Entry)) (hX : X ≠ []) (hY : Y ≠ [])
    (hvAzip : vA ≠ v ++ ".zip") (hzips : v ++ ".zip" ≠ vA ++ ".zip") :
    zip_DICOM_directories [] (dataFS [(v, .dir X), (vA, .dir Y)])
      ["data", vA] ["data", v] [] =
      .ok ((["data", vA ++ ".zip"], ["data", v ++ ".zip"]),
        dataFS [(v ++ ".zip", .file (.zipArchive (flattenChildren X))),
                (vA ++ ".zip", .file (.zipArchive (flattenChildren Y)))]) := by
  have hvzip : v ≠ v ++ ".zip" := str_ne_append_of_pos v ".zip" (by decide)
  have hvAzip2 : vA ≠ vA ++ ".zip" := str_ne_append_of_pos vA ".zip" (by decide)
  have hfind1 : findChild [(v, Entry.dir X), (vA, Entry.dir Y)] v =
      some (.dir X) := by
    rw [findChild_cons, if_pos rfl]
  have hfindA : findChild [(v, Entry.dir X), (vA, Entry.dir Y)] vA =
      some (.dir Y) := by
    rw [findChild_cons, if_neg hv, findChild_cons, if_pos rfl]
  have hz1 := zipDicom_flat v [(v, Entry.dir X), (vA, Entry.dir Y)] X hfind1 hX
    (by
      intro c hc
      rcases List.mem_cons.mp hc with rfl | hc
      · exact hvzip
      · rcases List.mem_singleton.mp hc with rfl
        exact hvAzip)
  have hvAv : ¬ vA = v := fun h => hv h.symm
  rw [show ([(v, Entry.dir X), (vA, Entry.dir Y)].filter
      (fun c => ¬ c.1 = v)) = [(vA, Entry.dir Y)] from by
        simp [hvAv]] at hz1
  have hfind2 : findChild ((vA, Entry.dir Y) ::
      [(v ++ ".zip", Entry.file (.zipArchive (flattenChildren X)))]) vA =
      some (.dir Y) := by
    rw [findChild_cons, if_pos rfl]
  have hz2 := zipDicom_flat vA ((vA, Entry.dir Y) ::
      [(v ++ ".zip", Entry.file (.zipArchive (flattenChildren X)))]) Y hfind2 hY
    (by
      intro c hc
      rcases List.mem_cons.mp hc with rfl | hc
      · exact hvAzip2
      · rcases List.mem_singleton.mp hc with rfl
        exact hzips)
  have hzvA : ¬ (v ++ ".zip") = vA := fun h => hvAzip h.symm
  rw [show (((vA, Entry.dir Y) ::
      [(v ++ ".zip", Entry.file (.zipArchive (flattenChildren X)))]).filter
      (fun c => ¬ c.1 = vA)) =
      [(v ++ ".zip", Entry.file (.zipArchive (flattenChildren X)))] from by
        simp [hzvA]] at hz2
  rw [List.singleton_append] at hz1 hz2
  unfold zip_DICOM_directories
  rw [show ((dataFS [(v, Entry.dir X), (vA, Entry.dir Y)]).existsAt
        ["data", vA] &&
      (dataFS [(v, Entry.dir X), (vA, Entry.dir Y)]).existsAt
        ["data", v]) = true from by
        rw [Entry.existsAt, lookup_dataFS, lookup_single, hfindA,
          Entry.existsAt, lookup_dataFS, lookup_single, hfind1]; rfl,
    if_pos rfl, hz1]
  dsimp only
  rw [hz2]
  dsimp only
  rw [show ((dataFS [(v ++ ".zip", Entry.file (.zipArchive (flattenChildren X))),
        (vA ++ ".zip", Entry.file (.zipArchive (flattenChildren Y)))]).existsAt
        ["data", vA ++ ".zip"] &&
      (dataFS [(v ++ ".zip", Entry.file (.zipArchive (flattenChildren X))),
        (vA ++ ".zip", Entry.file (.zipArchive (flattenChildren Y)))]).existsAt
        ["data", v ++ ".zip"]) = true from by
        rw [Entry.existsAt, lookup_dataFS, lookup_single, findChild_cons,
          if_neg hzips, findChild_cons, if_pos rfl,
          Entry.existsAt, lookup_dataFS, lookup_single, findChild_cons,
          if_pos rfl]; rfl,
    if_pos rfl]

/-- Claim C2 (amended): on a flat root of discovered DICOM files —
distinct non-excluded names, none clashing with the staging directory
names, and containing neither the path separator nor the root folder's
path string (so the `str.replace` of line 225 rewrites only the leading
folder occurrence; a name containing the folder string is mangled by the
substitution and the pipeline fails instead, see
`mangled_name_read_error`) — the PyDICOM pipeline succeeds and produces
two sibling zip archives inside the root, `<v>.zip` holding every
discovered file untouched and `<v>_anonymized.zip` holding the modified
copy of every discovered file; the two staging directories are created but
deleted again right after compression, so they do not exist in the final
filesystem, which holds exactly the two archives. -/
theorem C2_flat_pipeline (files : List (String × Dataset)) (fields : FieldDict)
    (fv : FieldEntry) (v : String)
    (hne : files ≠ [])
    (hnodup : (files.map (fun nd => (nd : String × Dataset).1)).Nodup)
    (hkeep : ∀ n ∈ files.map (fun nd => (nd : String × Dataset).1),
      isExcluded n = false)
    (hfr : ∀ n ∈ files.map (fun nd => (nd : String × Dataset).1),
      n ≠ v ∧ n ≠ v ++ "_anonymized")
    (hclean : ∀ n ∈ files.map (fun nd => (nd : String × Dataset).1),
      ('/' : Char) ∉ n.data ∧ listContainsSub ("data".data) n.data = false)
    (hvslash : ('/' : Char) ∉ v.data)
    (hf : fieldGet fields "0010,0010" = some fv) (hfv : fv.Value = some v) :
    Dicom_zapping_PyDicom [] (dataFS (dicomChildren files)) ["data"] fields =
      .ok ((["data", v ++ "_anonymized.zip"], ["data", v ++ ".zip"]),
        dataFS [
          (v ++ ".zip", .file (.zipArchive (files.map (fun nd =>
            ([(nd : String × Dataset).1], FileData.dicom nd.2))))),
          (v ++ "_anonymized.zip", .file (.zipArchive (files.map (fun nd =>
            ([(nd : String × Dataset).1],
              FileData.dicom (zapDataset nd.2 fields))))))]) := by
  have hvA : v ≠ v ++ "_anonymized" := str_ne_append_of_pos _ _ (by decide)
  have hstage := stageLoop_flat v (v ++ "_anonymized") hvA files []
    (by simpa using hnodup) (by simpa using hfr)
  simp only [show dicomChildren [] = ([] : List (String × Entry)) from rfl,
    List.nil_append] at hstage
  have hAslash : ('/' : Char) ∉ (v ++ "_anonymized").data := by
    rw [show (v ++ "_anonymized").data = v.data ++ ("_anonymized").data from rfl]
    intro hm
    rcases List.mem_append.mp hm with hm | hm
    · exact hvslash hm
    · exact absurd hm (by decide)
  have hzapl := zapLoop_flat v (v ++ "_anonymized") hvA hAslash fields
    (.dir (dicomChildren files)) files []
    (by simpa using hnodup) (by simpa using hfr) (by simpa using hclean)
  simp only [show zappedChildren fields [] = ([] : List (String × Entry)) from rfl,
    List.nil_append] at hzapl
  have hXne : dicomChildren files ≠ [] := by
    intro h
    exact hne (List.map_eq_nil_iff.mp h)
  have hYne : zappedChildren fields files ≠ [] := by
    intro h
    exact hne (List.map_eq_nil_iff.mp h)
  have hvAzip : (v ++ "_anonymized") ≠ v ++ ".zip" :=
    append_ne_append_of_length v _ _ (by decide)
  have hzips : v ++ ".zip" ≠ (v ++ "_anonymized") ++ ".zip" := by
    rw [String.append_assoc]
    exact append_ne_append_of_length v _ _ (by decide)
  have hzip := zip_dirs_flat v (v ++ "_anonymized") hvA (dicomChildren files)
    (zappedChildren fields files) hXne hYne hvAzip hzips
  rw [flattenChildren_dicomChildren, flattenChildren_zappedChildren,
    show (v ++ "_anonymized") ++ ".zip" = v ++ "_anonymized.zip" from by
      rw [String.append_assoc]
      rfl] at hzip
  unfold Dicom_zapping_PyDicom
  rw [grep_flat files hne hkeep]
  dsimp only
  rw [createDirectories_flat files fields fv v hf hfv hfr]
  dsimp only
  rw [hstage]
  dsimp only
  rw [hzapl]
  dsimp only
  exact hzip

/-- Witness for `C2_flat_pipeline`: one flat root with a single DICOM file
and a non-editable patient-name field; the run returns the two archive
paths, the original archive holds the untouched header, the anonymized one
the blanked header. -/
theorem C2_flat_pipeline_witness :
    Dicom_zapping_PyDicom []
        (dataFS (dicomChildren [("a.dcm", [("PatientName", "John")])]))
        ["data"] [("0010,0010", ⟨"PatientName", false, some "John", none⟩)] =
      .ok ((["data", "John_anonymized.zip"], ["data", "John.zip"]),
        dataFS
          [("John.zip", .file (.zipArchive
            [(["a.dcm"], .dicom [("PatientName", "John")])])),
           ("John_anonymized.zip", .file (.zipArchive
            [(["a.dcm"], .dicom [("PatientName", "")])]))]) := by
  have h := C2_flat_pipeline [("a.dcm", [("PatientName", "John")])]
    [("0010,0010", ⟨"PatientName", false, some "John", none⟩)]
    ⟨"PatientName", false, some "John", none⟩ "John"
    (by decide) (by decide) (by decide) (by decide) (by decide) (by decide)
    rfl rfl
  exact h

/-- The substitution model reproduces Python's replacement of every
occurrence: in the path `data/data.dcm` both the folder prefix and the
occurrence inside the file name are rewritten, mangling the path. -/
theorem strReplace_every_occurrence :
    strReplace "data/data.dcm" "data" "data/John_anonymized" =
      "data/John_anonymized/data/John_anonymized.dcm" := rfl

/-- On a file whose name contains the folder string, the zapping loop
opens the mangled path, which does not exist, and the pipeline fails with
the uncaught read error instead of producing the archives. -/
theorem mangled_name_read_error :
    errOf (Dicom_zapping_PyDicom []
      (dataFS (dicomChildren [("data.dcm", [("PatientName", "John")])]))
      ["data"] [("0010,0010", ⟨"PatientName", false, some "John", none⟩)]) =
      some .ioError := rfl

end DICAT
